import Mathlib

/-
  Verification of the Graphelix abuse-report case-tracking core against its
  natural-language specification.

  Shallow embedding conventions:
  * Python strings are modelled as Lean String / List Char; Python str
    comparison (<) is lexicographic on code points, modelled by pyStrLt.
  * datetime values are modelled as Nat (seconds); timedelta(hours=h) is
    h * 3600; datetime.utcnow() is passed in explicitly as a `now` argument
    (the source samples the clock during the call).
  * SQLAlchemy sessions are modelled by explicit database states (DB) and
    by plans of pending writes that a commit applies atomically, enforcing
    the unique constraints of the schema (dedup_index.url_hash,
    dedup_index.file_hash, idempotency_keys.key).
  * Exceptions are modelled with Except.
-/

namespace Graphelix

set_option maxRecDepth 16384

/-! Python string primitives (str.strip, str.lower, lexicographic <). -/

/-- The ASCII whitespace characters stripped by Python str.strip(). -/
def pyWhitespace : List Char := [' ', '\t', '\n', '\r', '\x0b', '\x0c']

/-- Is this character Python whitespace (ASCII fragment)? -/
def isPySpace (c : Char) : Bool := pyWhitespace.contains c

/-- Drop the trailing characters satisfying p (the shape shared by
str.strip() and str.rstrip()). -/
def rdropWhile (p : Char → Bool) (l : List Char) : List Char :=
  (l.reverse.dropWhile p).reverse

/-- Python str.strip(): drop whitespace from both ends. -/
def pyStripL (l : List Char) : List Char :=
  rdropWhile isPySpace (l.dropWhile isPySpace)

/-- Python str.lower() on one character (ASCII fragment). -/
def toLowerChar (c : Char) : Char :=
  if 'A' ≤ c ∧ c ≤ 'Z' then Char.ofNat (c.toNat + 32) else c

/-- Python str.lower() (ASCII fragment). -/
def toLowerL (l : List Char) : List Char := l.map toLowerChar

/-- Python string comparison a < b: lexicographic on code points. -/
def pyStrLtL : List Char → List Char → Bool
  | [], [] => false
  | [], _ :: _ => true
  | _ :: _, [] => false
  | a :: as, b :: bs =>
    if a.toNat < b.toNat then true
    else if b.toNat < a.toNat then false
    else pyStrLtL as bs

/-- Python string comparison on String values. -/
def pyStrLt (a b : String) : Bool := pyStrLtL a.data b.data

/-- Python str.strip() on String values. -/
def pyStrip (s : String) : String := String.mk (pyStripL s.data)

/-! Data model (src/app/models): UserRole, User, CaseState, Case, CaseEvent. -/

/-- UserRole(str, enum.Enum) from src/app/models/user.py. -/
inductive UserRole
  | victim
  | officer
  | admin
deriving DecidableEq

/-- The .value string of each UserRole member. -/
def UserRole.value : UserRole → String
  | .victim => "victim"
  | .officer => "officer"
  | .admin => "admin"

/-- CaseState(str, enum.Enum) from src/app/models/case.py. -/
inductive CaseState
  | submitted
  | in_review
  | approved
  | rejected
  | escalated
  | match_found
  | completed
deriving DecidableEq

/-- The .value string of each CaseState member. -/
def CaseState.value : CaseState → String
  | .submitted => "submitted"
  | .in_review => "in_review"
  | .approved => "approved"
  | .rejected => "rejected"
  | .escalated => "escalated"
  | .match_found => "match_found"
  | .completed => "completed"

/-- User row (src/app/models/user.py); only the fields the core reads. -/
structure User where
  id : String
  email : String
  role : UserRole
deriving DecidableEq

/-- Case row (src/app/models/case.py). Timestamps are Nat seconds. -/
structure Case where
  id : String
  submitter_id : String
  url : String
  url_normalized : String
  url_hash : Option String
  file_hash : Option String
  description : Option String
  state : CaseState
  assigned_officer_id : Option String
  created_at : Nat
  updated_at : Nat
  due_by : Option Nat
deriving DecidableEq

/-- The JSON event_metadata payloads written by the core, one constructor
per action kind (submitted, linked_submission, STATE_CHANGE). -/
inductive EventMetadata
  | submittedMeta (url : String) (has_url : Bool) (has_file_hash : Bool)
      (description_length : Nat)
  | linkedMeta (reason : String) (linked_at : Nat)
  | stateChange (from_state : String) (to_state : String)
      (transition_reason : String) (auto_assigned : Bool) (notes : Option String)
deriving DecidableEq

/-- CaseEvent row (src/app/models/case_event.py); the generated id column is
omitted (opaque, never read by the core). -/
structure CaseEvent where
  case_id : String
  actor_id : String
  actor_role : String
  action : String
  metadata : EventMetadata
deriving DecidableEq

/-! Workflow state machine (src/app/workflow.py). -/

/-- WorkflowTransition dataclass. -/
structure WorkflowTransition where
  from_state : CaseState
  to_state : CaseState
  required_role : UserRole
  description : String
  auto_assign : Bool := false
deriving DecidableEq

/-- SLAConfiguration dataclass. -/
structure SLAConfiguration where
  state : CaseState
  sla_hours : Nat
  escalation_state : Option CaseState
  description : String
deriving DecidableEq

/-- CaseWorkflowManager.TRANSITIONS, in source order. -/
def TRANSITIONS : List WorkflowTransition :=
  [ ⟨.submitted, .in_review, .officer, "Officer starts reviewing the case", true⟩,
    ⟨.submitted, .escalated, .admin, "Admin escalates high-priority case immediately", false⟩,
    ⟨.in_review, .approved, .officer, "Officer approves the takedown request", false⟩,
    ⟨.in_review, .rejected, .officer, "Officer rejects the takedown request", false⟩,
    ⟨.in_review, .match_found, .officer, "Officer finds matching content requiring action", false⟩,
    ⟨.in_review, .escalated, .officer, "Officer escalates complex case to admin", false⟩,
    ⟨.escalated, .approved, .admin, "Admin approves escalated case", false⟩,
    ⟨.escalated, .rejected, .admin, "Admin rejects escalated case", false⟩,
    ⟨.escalated, .in_review, .admin, "Admin sends case back to review", false⟩,
    ⟨.match_found, .completed, .officer, "Content removal action completed", false⟩,
    ⟨.match_found, .escalated, .officer, "Content removal requires admin intervention", false⟩,
    ⟨.approved, .completed, .officer, "Takedown process completed successfully", false⟩,
    ⟨.rejected, .completed, .officer, "Case closed as rejected", false⟩ ]

/-- CaseWorkflowManager.SLA_CONFIG. -/
def SLA_CONFIG : List SLAConfiguration :=
  [ ⟨.submitted, 24, some .escalated, "Cases must be reviewed within 24 hours"⟩,
    ⟨.in_review, 72, some .escalated, "Review must be completed within 72 hours"⟩,
    ⟨.escalated, 48, none, "Escalated cases must be resolved within 48 hours"⟩,
    ⟨.match_found, 24, some .escalated, "Content removal must be completed within 24 hours"⟩ ]

/-- self._transitions_map lookup: the dict keyed by (from_state, to_state).
The (from, to) keys of TRANSITIONS are pairwise distinct, so the dict holds
exactly the list entries and find? is an equivalent lookup. -/
def transitions_map (fs ts : CaseState) : Option WorkflowTransition :=
  TRANSITIONS.find? fun t => t.from_state == fs && t.to_state == ts

/-- self._sla_map lookup (states in SLA_CONFIG are pairwise distinct). -/
def sla_map (s : CaseState) : Option SLAConfiguration :=
  SLA_CONFIG.find? fun cfg => cfg.state == s

/-- Python truthiness of an Optional[str] column value. -/
def optStrTruthy : Option String → Bool
  | none => false
  | some s => !s.isEmpty

/-- CaseWorkflowManager.can_transition: returns (is_allowed, reason).
The role check mirrors the source line
user.role.value < transition.required_role.value, a Python string
comparison of the role names. -/
def can_transition (case : Case) (to_state : CaseState) (user : User) :
    Bool × String :=
  match transitions_map case.state to_state with
  | none =>
    (false, "Transition from " ++ case.state.value ++ " to " ++ to_state.value
      ++ " is not allowed")
  | some t =>
    if pyStrLt user.role.value t.required_role.value then
      (false, "User role " ++ user.role.value
        ++ " insufficient for this action (requires "
        ++ t.required_role.value ++ ")")
    else if case.state == CaseState.in_review
        && optStrTruthy case.assigned_officer_id
        && !(case.assigned_officer_id == some user.id)
        && !(user.role == UserRole.admin) then
      (false, "Only the assigned officer or admin can modify this case")
    else
      (true, t.description)

/-- CaseWorkflowManager.calculate_sla_deadline:
datetime.utcnow() + timedelta(hours=sla_hours), or None when the state has
no SLA_CONFIG entry. -/
def calculate_sla_deadline (state : CaseState) (now : Nat) : Option Nat :=
  match sla_map state with
  | none => none
  | some cfg => some (now + cfg.sla_hours * 3600)

/-- CaseWorkflowManager.transition_case. Returns the updated case and the
appended STATE_CHANGE event, or the ValueError reason. The source guards
due_by with `if new_deadline:` so a None deadline leaves due_by untouched. -/
def transition_case (case : Case) (to_state : CaseState) (user : User)
    (notes : Option String) (now : Nat) : Except String (Case × CaseEvent) :=
  let cr := can_transition case to_state user
  if cr.1 then
    match transitions_map case.state to_state with
    | none => .error cr.2
    | some t =>
      let old_state := case.state
      let assigned :=
        if t.auto_assign && !optStrTruthy case.assigned_officer_id then
          some user.id
        else case.assigned_officer_id
      let due :=
        match calculate_sla_deadline to_state now with
        | some d => some d
        | none => case.due_by
      let c := { case with
        state := to_state
        updated_at := now
        assigned_officer_id := assigned
        due_by := due }
      let e : CaseEvent :=
        { case_id := case.id
          actor_id := user.id
          actor_role := user.role.value
          action := "STATE_CHANGE"
          metadata := .stateChange old_state.value to_state.value cr.2
            t.auto_assign notes }
      .ok (c, e)
  else
    .error cr.2

/-- The note string of escalate_overdue_case: the f-string
"Auto-escalated due to SLA breach (deadline: ...)" rendering case.due_by
(a None deadline renders as the Python literal None). -/
def slaBreachNote (due : Option Nat) : String :=
  "Auto-escalated due to SLA breach (deadline: "
    ++ (match due with | some d => toString d | none => "None") ++ ")"

/-- The escalation target of a state per SLA_CONFIG (None when the state is
absent from the table or its entry has no escalation_state). -/
def escalation_target (s : CaseState) : Option CaseState :=
  (sla_map s).bind fun cfg => cfg.escalation_state

/-- CaseWorkflowManager.escalate_overdue_case: returns (returned bool,
resulting case, appended event if any). A rejected transition raises
ValueError inside transition_case, which is caught and turned into False. -/
def escalate_overdue_case (case : Case) (system_user : User) (now : Nat) :
    Bool × Case × Option CaseEvent :=
  match sla_map case.state with
  | none => (false, case, none)
  | some cfg =>
    match cfg.escalation_state with
    | none => (false, case, none)
    | some esc =>
      match transition_case case esc system_user
          (some (slaBreachNote case.due_by)) now with
      | .ok (c, e) => (true, c, some e)
      | .error _ => (false, case, none)

/-- The system actor created by CaseAutomationService.ensure_system_user
(src/app/automation.py): role ADMIN, distinguished email. -/
def ensure_system_user_row (uid : String) : User :=
  { id := uid, email := "system@takedown.internal", role := .admin }

/-! Model of the CPython urllib.parse functions used by
src/app/services/normalization.py (urlparse, parse_qs, urlencode,
urlunparse), restricted to ASCII text (the development only ever applies
them to ASCII inputs). -/

/-- Python s.find(c) followed by the slices s[:i] / s[i+1:]: the text before
the first occurrence and the text after it, or none when absent. -/
def splitFirst (c : Char) (l : List Char) : Option (List Char × List Char) :=
  match l.dropWhile (fun a => !(a == c)) with
  | [] => none
  | _ :: post => some (l.takeWhile (fun a => !(a == c)), post)

/-- Python s.split(c): split on every occurrence of one character. -/
def splitOnChar (c : Char) : List Char → List (List Char)
  | [] => [[]]
  | a :: as =>
    let r := splitOnChar c as
    if a == c then [] :: r
    else
      match r with
      | [] => [[a]]
      | h :: t => (a :: h) :: t

/-- Hex digit value of a character, if any. -/
def hexVal? (c : Char) : Option Nat :=
  if '0' ≤ c ∧ c ≤ '9' then some (c.toNat - 48)
  else if 'a' ≤ c ∧ c ≤ 'f' then some (c.toNat - 87)
  else if 'A' ≤ c ∧ c ≤ 'F' then some (c.toNat - 55)
  else none

/-- Percent-decoding as in urllib.parse.unquote: a valid %XX escape becomes
the byte value (ASCII byte model of the UTF-8 decoding); an invalid escape
is left as literal text. -/
def percentDecode : List Char → List Char
  | [] => []
  | '%' :: h1 :: h2 :: rest =>
    match hexVal? h1, hexVal? h2 with
    | some a, some b => Char.ofNat (16 * a + b) :: percentDecode rest
    | _, _ => '%' :: percentDecode (h1 :: h2 :: rest)
  | c :: rest => c :: percentDecode rest

/-- urllib.parse.unquote_plus: plus-to-space, then percent-decode. -/
def unquotePlusL (l : List Char) : List Char :=
  percentDecode (l.map fun c => if c == '+' then ' ' else c)

/-- parse_qsl with keep_blank_values=False: split the query on the ampersand
separator, skip empty chunks, skip chunks without an equals sign, skip pairs
whose raw value is blank, and unquote names and values. -/
def parse_qsl (qs : List Char) : List (List Char × List Char) :=
  (splitOnChar '&' qs).filterMap fun nv =>
    if nv.isEmpty then none
    else
      match splitFirst '=' nv with
      | none => none
      | some (n, v) =>
        if v.isEmpty then none else some (unquotePlusL n, unquotePlusL v)

/-- Append one (key, value) to a key-to-list-of-values association, keeping
first-occurrence key order (Python dict insertion order). -/
def insertQS (acc : List (List Char × List (List Char))) (k v : List Char) :
    List (List Char × List (List Char)) :=
  match acc with
  | [] => [(k, [v])]
  | (k0, vs) :: rest =>
    if k0 == k then (k0, vs ++ [v]) :: rest else (k0, vs) :: insertQS rest k v

/-- urllib.parse.parse_qs: group parse_qsl pairs into a dict of lists. -/
def parse_qsM (qs : List Char) : List (List Char × List (List Char)) :=
  (parse_qsl qs).foldl (fun acc kv => insertQS acc kv.1 kv.2) []

/-- Insert one pair into a key-sorted list (Python sorted on dict items;
keys are pairwise distinct so the key comparison decides the order). -/
def insertSorted (p : List Char × List (List Char)) :
    List (List Char × List (List Char)) → List (List Char × List (List Char))
  | [] => [p]
  | q :: rest =>
    if pyStrLtL q.1 p.1 then q :: insertSorted p rest else p :: q :: rest

/-- sorted(pairs) by key. -/
def sortPairs (l : List (List Char × List (List Char))) :
    List (List Char × List (List Char)) :=
  l.foldr insertSorted []

/-- The always-safe characters of urllib.parse.quote (urlencode passes
safe as the empty string, so nothing else is safe). -/
def alwaysSafe (c : Char) : Bool :=
  if ('a' ≤ c ∧ c ≤ 'z') ∨ ('A' ≤ c ∧ c ≤ 'Z') ∨ ('0' ≤ c ∧ c ≤ '9') then true
  else if c = '_' ∨ c = '.' ∨ c = '-' ∨ c = '~' then true
  else false

/-- Uppercase hex digit, as produced by percent-escapes. -/
def hexDigitU (n : Nat) : Char :=
  (['0', '1', '2', '3', '4', '5', '6', '7', '8', '9',
    'A', 'B', 'C', 'D', 'E', 'F']).getD n '0'

/-- quote_plus on one character: safe characters pass through, space becomes
a plus, anything else is percent-escaped (ASCII byte model). -/
def quotePlusChar (c : Char) : List Char :=
  if alwaysSafe c then [c]
  else if c == ' ' then ['+']
  else ['%', hexDigitU (c.toNat % 256 / 16), hexDigitU (c.toNat % 16)]

/-- urllib.parse.quote_plus on a string. -/
def quotePlusL : List Char → List Char
  | [] => []
  | c :: cs => quotePlusChar c ++ quotePlusL cs

/-- Join encoded pairs with ampersands. -/
def intercalateAmp : List (List Char) → List Char
  | [] => []
  | [x] => x
  | x :: y :: rest => x ++ '&' :: intercalateAmp (y :: rest)

/-- urllib.parse.urlencode with doseq=True and the default quote_plus:
each value of each key becomes key=value, joined with ampersands. -/
def urlencodeM (pairs : List (List Char × List (List Char))) : List Char :=
  intercalateAmp
    (pairs.foldr
      (fun p acc => (p.2.map fun v => quotePlusL p.1 ++ '=' :: quotePlusL v) ++ acc)
      [])

/-- The characters allowed in a URL scheme (urllib.parse.scheme_chars). -/
def scheme_chars : List Char :=
  "abcdefghijklmnopqrstuvwxyzABCDEFGHIJKLMNOPQRSTUVWXYZ0123456789+-.".data

/-- Is this an ASCII letter? -/
def isAsciiAlpha (c : Char) : Bool :=
  if ('a' ≤ c ∧ c ≤ 'z') ∨ ('A' ≤ c ∧ c ≤ 'Z') then true else false

/-- The scheme-splitting step of urlsplit: the text before the first colon
is a scheme when it is nonempty, starts with an ASCII letter and uses only
scheme characters; the scheme is lowercased. Otherwise nothing is split. -/
def splitScheme (l : List Char) : Option (List Char × List Char) :=
  match splitFirst ':' l with
  | none => none
  | some (pre, post) =>
    if pre ≠ [] ∧ isAsciiAlpha (pre.headD ' ') = true
        ∧ (pre.all fun c => scheme_chars.contains c) = true then
      some (toLowerL pre, post)
    else none

/-- The netloc-splitting step (_splitnetloc): the network location runs to
the first slash, question mark or hash sign. -/
def splitnetloc (l : List Char) : List Char × List Char :=
  (l.takeWhile fun c => !(c == '/' || c == '?' || c == '#'),
   l.dropWhile fun c => !(c == '/' || c == '?' || c == '#'))

/-- The six components of urlparse. -/
structure ParseResult where
  scheme : List Char
  netloc : List Char
  path : List Char
  params : List Char
  query : List Char
  fragment : List Char
deriving DecidableEq

/-- urlsplit removes tab, carriage-return and newline characters first. -/
def removeUnsafe (l : List Char) : List Char :=
  l.filter fun c => !(c == '\t' || c == '\r' || c == '\n')

/-- The scheme step of urlsplit: the split scheme, or empty scheme and the
unchanged url. -/
def splitSchemeOr (u : List Char) : List Char × List Char :=
  match splitScheme u with
  | some p => p
  | none => (([] : List Char), u)

/-- The netloc step of urlsplit: only a url starting with two slashes has a
network location. -/
def splitNetlocOr (v : List Char) : List Char × List Char :=
  if v.take 2 = ['/', '/'] then splitnetloc (v.drop 2)
  else (([] : List Char), v)

/-- The fragment split of urlsplit. -/
def splitFragmentOr (w : List Char) : List Char × List Char :=
  match splitFirst '#' w with
  | some p => p
  | none => (w, ([] : List Char))

/-- The query split of urlsplit. -/
def splitQueryOr (w : List Char) : List Char × List Char :=
  match splitFirst '?' w with
  | some p => p
  | none => (w, ([] : List Char))

/-- urlsplit after the scheme has been split off. Bracketed (IPv6) network
locations are modelled as the parse failure branch: mismatched brackets
raise ValueError in CPython and matched brackets undergo host validation;
every input in this development is bracket-free. -/
def urlsplitAfterScheme (scheme v : List Char) : Except Unit ParseResult :=
  if (splitNetlocOr v).1.any (fun c => c == '[' || c == ']') then .error ()
  else
    .ok ⟨scheme, (splitNetlocOr v).1,
      (splitQueryOr (splitFragmentOr (splitNetlocOr v).2).1).1, [],
      (splitQueryOr (splitFragmentOr (splitNetlocOr v).2).1).2,
      (splitFragmentOr (splitNetlocOr v).2).2⟩

/-- urllib.parse.urlsplit (allow_fragments=True). -/
def urlsplitM (url : List Char) : Except Unit ParseResult :=
  urlsplitAfterScheme (splitSchemeOr (removeUnsafe url)).1
    (splitSchemeOr (removeUnsafe url)).2

/-- The schemes that use path parameters (urllib.parse.uses_params). -/
def uses_params : List String :=
  ["", "ftp", "hdl", "prospero", "http", "imap", "https", "shttp", "rtsp",
   "rtspu", "sip", "sips", "mms", "sftp", "tel"]

/-- urllib.parse._splitparams: when the path has a slash, a parameter part
starts at the first semicolon at or after the last slash; otherwise at the
first semicolon. -/
def splitparams (l : List Char) : List Char × List Char :=
  if l.any (fun c => c == '/') then
    let r := l.reverse
    let suf := (r.takeWhile fun c => !(c == '/')).reverse
    let pre := (r.dropWhile fun c => !(c == '/')).reverse
    match splitFirst ';' suf with
    | none => (l, [])
    | some (a, b) => (pre ++ a, b)
  else
    match splitFirst ';' l with
    | none => (l, [])
    | some (a, b) => (a, b)

/-- urllib.parse.urlparse: urlsplit, then parameter splitting when the
scheme uses parameters and the path holds a semicolon. -/
def urlparseM (url : List Char) : Except Unit ParseResult :=
  match urlsplitM url with
  | .error e => .error e
  | .ok r =>
    if uses_params.contains (String.mk r.scheme) && r.path.any (fun c => c == ';') then
      let p := splitparams r.path
      .ok { r with path := p.1, params := p.2 }
    else .ok r

/-- The netloc-reattachment step of urlunsplit. -/
def addNetloc (netloc url : List Char) : List Char :=
  if netloc ≠ [] ∨ (url ≠ [] ∧ url.take 2 = ['/', '/']) then
    '/' :: '/' :: (netloc ++ (if url ≠ [] ∧ url.take 1 ≠ ['/'] then '/' :: url else url))
  else url

/-- The scheme-reattachment step of urlunsplit. -/
def addScheme (scheme url : List Char) : List Char :=
  if scheme ≠ [] then scheme ++ ':' :: url else url

/-- The query-reattachment step of urlunsplit. -/
def addQuery (url query : List Char) : List Char :=
  if query ≠ [] then url ++ '?' :: query else url

/-- The fragment-reattachment step of urlunsplit. -/
def addFragment (url fragment : List Char) : List Char :=
  if fragment ≠ [] then url ++ '#' :: fragment else url

/-- urllib.parse.urlunsplit. -/
def urlunsplitM (scheme netloc path query fragment : List Char) : List Char :=
  addFragment (addQuery (addScheme scheme (addNetloc netloc path)) query) fragment

/-- urllib.parse.urlunparse: a nonempty parameter part is re-attached to
the path with a semicolon, then urlunsplit. -/
def urlunparseM (r : ParseResult) : List Char :=
  let path := if r.params ≠ [] then r.path ++ ';' :: r.params else r.path
  urlunsplitM r.scheme r.netloc path r.query r.fragment

/-! URLNormalizer (src/app/services/normalization.py). -/

/-- URLNormalizer.TRACKING_PARAMS. -/
def TRACKING_PARAMS : List String :=
  ["utm_source", "utm_medium", "utm_campaign", "utm_term", "utm_content",
   "gclid", "gclsrc", "dclid", "wbraid", "gbraid",
   "fbclid", "fbadid",
   "msclkid",
   "ref", "referrer", "source",
   "sessionid", "sid", "_t", "timestamp", "ts",
   "v", "version", "cache", "nocache"]

/-- Python s.rstrip(slash): drop every trailing slash. -/
def rstripSlash (l : List Char) : List Char :=
  rdropWhile (fun c => c == '/') l

/-- The dict comprehension dropping tracking keys (compared lowercased). -/
def filterTracking (pairs : List (List Char × List (List Char))) :
    List (List Char × List (List Char)) :=
  pairs.filter fun p => !(TRACKING_PARAMS.contains (String.mk (toLowerL p.1)))

/-- Does the lowercased URL start with http:// or https://? -/
def startsWithHttp (l : List Char) : Bool :=
  "http://".data.isPrefixOf l || "https://".data.isPrefixOf l

/-- The body of normalize_url after a successful parse: filter and re-encode
the query sorted by key, strip trailing slashes from a non-root path, and
reassemble without the fragment. -/
def reassemble (r : ParseResult) : List Char :=
  urlunparseM { r with
    path := if r.path = "/".data then "/".data else rstripSlash r.path
    query :=
      if r.query ≠ [] then urlencodeM (sortPairs (filterTracking (parse_qsM r.query)))
      else []
    fragment := [] }

/-- normalize_url after lowercasing: parse, normalize and reassemble; on
parse failure return the lowercased stripped text. -/
def normalizeLowered (u3 : List Char) : List Char :=
  match urlparseM u3 with
  | .ok r => reassemble r
  | .error _ => toLowerL (pyStripL u3)

/-- normalize_url after strip: prepend https:// when the lowercased url has
no http(s) scheme, lowercase, and continue. -/
def normalizeStripped (u1 : List Char) : List Char :=
  normalizeLowered
    (toLowerL (if startsWithHttp (toLowerL u1) then u1 else "https://".data ++ u1))

/-- URLNormalizer.normalize_url on character lists: blank input to empty,
else strip and continue. -/
def normalizeL (url : List Char) : List Char :=
  if (pyStripL url).isEmpty then []
  else normalizeStripped (pyStripL url)

/-- URLNormalizer.normalize_url on String values. -/
def normalize_url (s : String) : String := String.mk (normalizeL s.data)

/-- Modelled from the spec: the SHA-256 lowercase-hex digest of hashlib
(external to this repository) — a deterministic 64-character lowercase-hex
digest of the input; the claims depend only on determinism and shape, never
on concrete digest values. -/
def sha256_hex (s : String) : String :=
  String.mk (toHexAux 64 (s.data.foldl (fun a c => (a * 131 + c.toNat + 17) % (2 ^ 256)) 7) [])
where
  toHexAux : Nat → Nat → List Char → List Char
    | 0, _, acc => acc
    | k + 1, n, acc =>
      toHexAux k (n / 16) (("0123456789abcdef".data.getD (n % 16) '0') :: acc)

/-- URLNormalizer.compute_url_hash: empty input gives the empty string. -/
def compute_url_hash (normalized_url : String) : String :=
  if normalized_url = "" then "" else sha256_hex normalized_url

/-- Exactly 64 lowercase hex characters (the regex of compute_file_hash). -/
def is64LowerHex (l : List Char) : Bool :=
  l.length == 64 && l.all fun c =>
    if ('a' ≤ c ∧ c ≤ 'f') ∨ ('0' ≤ c ∧ c ≤ '9') then true else false

/-- URLNormalizer.compute_file_hash: trim and lowercase, keep only a valid
64-hex digest, otherwise the empty string. -/
def compute_file_hash (file_hash : String) : String :=
  if file_hash = "" then ""
  else
    let cleaned := toLowerL (pyStripL file_hash.data)
    if is64LowerHex cleaned then String.mk cleaned else ""

/-- The dict returned by URLNormalizer.process_submission. -/
structure ProcessedSubmission where
  url : String
  url_normalized : String
  url_hash : String
  file_hash : String
  has_content : Bool
deriving DecidableEq

/-- URLNormalizer.process_submission. -/
def process_submission (url file_hash : Option String) : ProcessedSubmission :=
  let base : ProcessedSubmission :=
    { url := url.getD "", url_normalized := "", url_hash := "",
      file_hash := "", has_content := false }
  let r1 :=
    match url with
    | some u =>
      if (pyStripL u.data).isEmpty then base
      else
        let n := normalize_url u
        { base with
          url := pyStrip u
          url_normalized := n
          url_hash := compute_url_hash n
          has_content := true }
    | none => base
  match file_hash with
  | some f =>
    if (pyStripL f.data).isEmpty then r1
    else
      let fh := compute_file_hash f
      if fh ≠ "" then { r1 with file_hash := fh, has_content := true }
      else { r1 with file_hash := fh }
  | none => r1

/-! Deduplication / idempotency engine (src/app/services/deduplication.py).
The store is an explicit state; a create_case call first computes a plan of
pending writes from its read snapshot, then a commit applies the plan
atomically, enforcing the unique constraints of the schema
(dedup_index.url_hash, dedup_index.file_hash, idempotency_keys.key; the
cases table itself has no unique hash columns, so the mid-call flush of the
new Case row cannot conflict and is folded into the commit). -/

/-- DedupIndex row (src/app/models/dedup.py); the generated id column is
omitted (opaque, never read). -/
structure DedupIndexRow where
  case_id : String
  url_hash : Option String
  file_hash : Option String
deriving DecidableEq

/-- The persistent store: cases, dedup index, idempotency keys
((key, case_id) pairs) and audit events. -/
structure DB where
  cases : List Case
  dedup : List DedupIndexRow
  idem_keys : List (String × String)
  events : List CaseEvent
deriving DecidableEq

/-- The exceptions create_case can raise: the ValueError of the content
check, MultipleResultsFound / NoResultFound from scalar_one(_or_none), and
IntegrityError from a violated unique constraint at commit. -/
inductive CreateError
  | validationError (msg : String)
  | multipleResultsFound
  | noResultFound
  | constraintViolation
deriving DecidableEq

/-- DeduplicationService.check_existing_case: cases whose url_hash or
file_hash equals a supplied hash (OR condition), read through
scalar_one_or_none (raises on more than one match). -/
def check_existing_case (db : DB) (url_hash file_hash : Option String) :
    Except CreateError (Option Case) :=
  if url_hash = none ∧ file_hash = none then .ok none
  else
    let found := db.cases.filter fun c =>
      (match url_hash with | some h => c.url_hash == some h | none => false)
      || (match file_hash with | some h => c.file_hash == some h | none => false)
    match found with
    | [] => .ok none
    | [c] => .ok (some c)
    | _ :: _ :: _ => .error .multipleResultsFound

/-- DeduplicationService.check_idempotency_key, through
scalar_one_or_none. -/
def check_idempotency_key (db : DB) (idempotency_key : String) :
    Except CreateError (Option String) :=
  if idempotency_key = "" then .ok none
  else
    match db.idem_keys.filter (fun kv => kv.1 == idempotency_key) with
    | [] => .ok none
    | [kv] => .ok (some kv.2)
    | _ :: _ :: _ => .error .multipleResultsFound

/-- DeduplicationService._create_link_event. -/
def create_link_event (existing_case : Case) (submitter : User) (now : Nat) :
    CaseEvent :=
  { case_id := existing_case.id
    actor_id := submitter.id
    actor_role := submitter.role.value
    action := "linked_submission"
    metadata := .linkedMeta "duplicate_detected" now }

/-- DeduplicationService._create_submission_event. -/
def create_submission_event (c : Case) (submitter : User) : CaseEvent :=
  { case_id := c.id
    actor_id := submitter.id
    actor_role := submitter.role.value
    action := "submitted"
    metadata := .submittedMeta c.url (!c.url.isEmpty) (optStrTruthy c.file_hash)
      (match c.description with | some d => d.length | none => 0) }

/-- DeduplicationService._create_dedup_entries: one row per present hash,
each row carrying only the hash kind it represents. -/
def create_dedup_entries (c : Case) : List DedupIndexRow :=
  (if optStrTruthy c.url_hash then [⟨c.id, c.url_hash, none⟩] else [])
    ++ (if optStrTruthy c.file_hash then [⟨c.id, none, c.file_hash⟩] else [])

/-- The pending writes of one create_case call, together with the returned
(case, is_new) pair. -/
structure SubmissionPlan where
  result_case : Case
  is_new : Bool
  new_cases : List Case
  new_dedup : List DedupIndexRow
  new_events : List CaseEvent
  new_keys : List (String × String)
deriving DecidableEq

/-- The content-hash part of the create_case read phase (reached both when
no idempotency key is supplied and when a supplied key is not yet bound):
look up an existing case by either hash; on a hit plan the linked
submission, on a miss plan the new Case with its dedup rows, submitted
event and key binding. -/
def dedupLookupPlan (db : DB) (submitter : User)
    (processed : ProcessedSubmission) (description : Option String)
    (keyStr : String) (now : Nat) (new_id : String) :
    Except CreateError SubmissionPlan :=
  match check_existing_case db
      (if processed.url_hash ≠ "" then some processed.url_hash else none)
      (if processed.file_hash ≠ "" then some processed.file_hash else none) with
  | .error e => .error e
  | .ok (some existing) =>
    .ok ⟨existing, false, [], [],
      [create_link_event existing submitter now],
      if keyStr ≠ "" then [(keyStr, existing.id)] else []⟩
  | .ok none =>
    let new_case : Case :=
      { id := new_id
        submitter_id := submitter.id
        url := processed.url
        url_normalized := processed.url_normalized
        url_hash := if processed.url_hash ≠ "" then some processed.url_hash else none
        file_hash := if processed.file_hash ≠ "" then some processed.file_hash else none
        description := description
        state := .submitted
        assigned_officer_id := none
        created_at := now
        updated_at := now
        due_by := calculate_sla_deadline .submitted now }
    .ok ⟨new_case, true, [new_case], create_dedup_entries new_case,
      [create_submission_event new_case submitter],
      if keyStr ≠ "" then [(keyStr, new_case.id)] else []⟩

/-- The read/compute phase of DeduplicationService.create_case, ending just
before the transaction commit: content validation, idempotency-key lookup,
then the content-hash dedup path. -/
def create_case_plan (db : DB) (submitter : User)
    (url file_hash description idempotency_key : Option String)
    (now : Nat) (new_id : String) : Except CreateError SubmissionPlan :=
  let processed := process_submission url file_hash
  if !processed.has_content then
    .error (.validationError "Either URL or file_hash must be provided")
  else
    let keyStr := idempotency_key.getD ""
    match (if keyStr ≠ "" then check_idempotency_key db keyStr else .ok none :
        Except CreateError (Option String)) with
    | .error e => .error e
    | .ok (some cid) =>
      (match db.cases.filter (fun c => c.id == cid) with
       | [c] => .ok ⟨c, false, [], [], [], []⟩
       | [] => .error .noResultFound
       | _ :: _ :: _ => .error .multipleResultsFound)
    | .ok none =>
      dedupLookupPlan db submitter processed description keyStr now new_id

/-- Does some pending write violate a unique constraint of the schema
against this store state? -/
def violatesConstraints (db : DB) (p : SubmissionPlan) : Bool :=
  (p.new_dedup.any fun r =>
    (match r.url_hash with
     | some h => db.dedup.any fun r0 => r0.url_hash == some h
     | none => false)
    || (match r.file_hash with
        | some h => db.dedup.any fun r0 => r0.file_hash == some h
        | none => false))
  || (p.new_keys.any fun kv => db.idem_keys.any fun kv0 => kv0.1 == kv.1)

/-- The transaction commit: the unique constraints are the enforcement
point; on violation the store raises IntegrityError and nothing persists,
otherwise every pending write persists. -/
def commit_plan (db : DB) (p : SubmissionPlan) : Except CreateError DB :=
  if violatesConstraints db p then .error .constraintViolation
  else .ok
    { cases := db.cases ++ p.new_cases
      dedup := db.dedup ++ p.new_dedup
      idem_keys := db.idem_keys ++ p.new_keys
      events := db.events ++ p.new_events }

/-- What create_case returns on success, with the committed store. -/
structure CreateOutcome where
  result_case : Case
  is_new : Bool
  db : DB
deriving DecidableEq

/-- DeduplicationService.create_case run against one store snapshot: the
reads and the commit see the same state (no concurrent writer). -/
def create_case (db : DB) (submitter : User)
    (url file_hash description idempotency_key : Option String)
    (now : Nat) (new_id : String) : Except CreateError CreateOutcome :=
  match create_case_plan db submitter url file_hash description idempotency_key now new_id with
  | .error e => .error e
  | .ok p =>
    match commit_plan db p with
    | .error e => .error e
    | .ok db2 => .ok ⟨p.result_case, p.is_new, db2⟩

/-- create_case when another transaction committed between this call's
dedup lookup and its commit: the reads see db_read while the commit applies
to db_commit — the racing-duplicate scenario of the specification. -/
def create_case_race (db_read db_commit : DB) (submitter : User)
    (url file_hash description idempotency_key : Option String)
    (now : Nat) (new_id : String) : Except CreateError CreateOutcome :=
  match create_case_plan db_read submitter url file_hash description idempotency_key now new_id with
  | .error e => .error e
  | .ok p =>
    match commit_plan db_commit p with
    | .error e => .error e
    | .ok db2 => .ok ⟨p.result_case, p.is_new, db2⟩

/-- Was a nonblank url supplied? (url and url.strip() in the source.) -/
def urlSuppliedNonblank : Option String → Bool
  | none => false
  | some u => !(pyStripL u.data).isEmpty

/-- Was a file hash supplied that passes compute_file_hash validation? -/
def fileHashValid : Option String → Bool
  | none => false
  | some f => !(compute_file_hash f == "")

/-- Store sanity: unique case ids, unique idempotency keys that resolve to
a stored case, unique non-null case hashes, and every dedup-index hash
backed by a case carrying that hash. Every consistent sequential history
of the engine maintains this. -/
def DBWf (db : DB) : Prop :=
  (db.cases.map Case.id).Nodup
    ∧ (db.idem_keys.map Prod.fst).Nodup
    ∧ (∀ kv ∈ db.idem_keys, ∃ c ∈ db.cases, c.id = kv.2)
    ∧ (db.cases.filterMap Case.url_hash).Nodup
    ∧ (db.cases.filterMap Case.file_hash).Nodup
    ∧ (∀ r ∈ db.dedup, ∀ h ∈ r.url_hash.toList, ∃ c ∈ db.cases, c.url_hash = some h)
    ∧ (∀ r ∈ db.dedup, ∀ h ∈ r.file_hash.toList, ∃ c ∈ db.cases, c.file_hash = some h)

/-! The canonical-https URL class used for the general normalization
theorems: a nonempty lowercase host and an absent-or-absolute lowercase
path, free of queries, fragments, semicolons, percent escapes, brackets
and whitespace. -/

/-- The host alphabet of the canonical class. -/
def hostChars : List Char := "abcdefghijklmnopqrstuvwxyz0123456789.-".data

/-- The path alphabet of the canonical class (slash included). -/
def pathChars : List Char := "abcdefghijklmnopqrstuvwxyz0123456789/.-_".data

/-- Host-class membership. -/
def hostOk (c : Char) : Bool := decide (c ∈ hostChars)

/-- Path-class membership. -/
def pathOk (c : Char) : Bool := decide (c ∈ pathChars)

/-- The URL https://host+path as a character list. -/
def canonicalHttps (h p : List Char) : List Char := "https://".data ++ h ++ p

/-- The canonical class: nonempty host over hostChars; path empty or
starting with a slash over pathChars. -/
def CanonicalClass (h p : List Char) : Prop :=
  h ≠ [] ∧ (∀ c ∈ h, hostOk c = true)
    ∧ (p = [] ∨ (p.head? = some '/' ∧ ∀ c ∈ p, pathOk c = true))

/-- The per-character facts the normalization proofs need of class
characters: not whitespace, fixed by lowercasing, not removed by urlsplit,
not a delimiter, not a bracket, not a semicolon. -/
def charFacts (c : Char) : Bool :=
  !(isPySpace c) && (toLowerChar c == c)
    && !(c == '\t' || c == '\r' || c == '\n')
    && !(c == '?') && !(c == '#') && !(c == ';')
    && !(c == '[' || c == ']')

/-! Concrete fixtures for the closed theorems and witnesses. -/

/-- A victim-role user. -/
def exVictim : User := ⟨"u-victim", "victim@example.com", .victim⟩

/-- An officer-role user. -/
def exOfficer : User := ⟨"u-officer", "officer@example.com", .officer⟩

/-- An admin-role user. -/
def exAdmin : User := ⟨"u-admin", "admin@example.com", .admin⟩

/-- The system actor of the automation service. -/
def exSystem : User := ensure_system_user_row "u-system"

/-- An unassigned case under review with a live SLA deadline. -/
def exReviewCase : Case :=
  ⟨"case-1", "u-victim", "https://x.com/a", "https://x.com/a",
   some "h-url-1", none, none, .in_review, none, 0, 0, some 100⟩

/-- An overdue case still in SUBMITTED. -/
def exOverdueCase : Case :=
  ⟨"case-2", "u-victim", "https://x.com/b", "https://x.com/b",
   some "h-url-2", none, none, .submitted, none, 0, 0, some 50⟩

/-- A case in the terminal COMPLETED state. -/
def exCompletedCase : Case :=
  ⟨"case-3", "u-victim", "https://x.com/c", "https://x.com/c",
   some "h-url-3", none, none, .completed, none, 0, 0, none⟩

/-- The empty store. -/
def emptyDB : DB := ⟨[], [], [], []⟩

/-- The digest of the normalized form of https://a.com. -/
def aComHash : String := compute_url_hash (normalize_url "https://a.com")

/-- The case created by the first submission of https://a.com at time 1000
under idempotency key k1. -/
def aComCase : Case :=
  ⟨"case-a", "u-victim", "https://a.com", normalize_url "https://a.com",
   some aComHash, none, none, .submitted, none, 1000, 1000, some 87400⟩

/-- The store after that first submission. -/
def dbAfterA : DB :=
  ⟨[aComCase], [⟨"case-a", some aComHash, none⟩], [("k1", "case-a")],
   [create_submission_event aComCase exVictim]⟩

/-- dbAfterA plus the linked_submission event of a duplicate resubmission
of the same url by exOfficer at time 2000. -/
def dbAfterALinked : DB :=
  { dbAfterA with
    events := dbAfterA.events ++ [create_link_event aComCase exOfficer 2000] }

/-- The case exOverdueCase after exOfficer moves it to IN_REVIEW at 999:
auto-assigned to the officer, due in 72 hours. -/
def exTransResult : Case :=
  { exOverdueCase with
    state := .in_review
    updated_at := 999
    assigned_officer_id := some "u-officer"
    due_by := some 260199 }

/-- The STATE_CHANGE event of that transition. -/
def exTransEvent : CaseEvent :=
  ⟨"case-2", "u-officer", "officer", "STATE_CHANGE",
   .stateChange "submitted" "in_review" "Officer starts reviewing the case" true none⟩

/-! Theorems. Generic list and character-list helper lemmas first. -/

/-- Helper: dropWhile walks through a prefix it wholly satisfies. -/
lemma dropWhile_append_all {p : Char → Bool} (l1 l2 : List Char)
    (h : ∀ c ∈ l1, p c = true) :
    (l1 ++ l2).dropWhile p = l2.dropWhile p := by
  induction l1 with
  | nil => rfl
  | cons a t ih =>
    simp only [List.cons_append, List.dropWhile_cons]
    rw [h a (List.mem_cons_self a t)]
    simp only [if_true]
    exact ih fun c hc => h c (List.mem_cons_of_mem a hc)

/-- Helper: takeWhile keeps a prefix it wholly satisfies. -/
lemma takeWhile_append_all {p : Char → Bool} (l1 l2 : List Char)
    (h : ∀ c ∈ l1, p c = true) :
    (l1 ++ l2).takeWhile p = l1 ++ l2.takeWhile p := by
  induction l1 with
  | nil => rfl
  | cons a t ih =>
    simp only [List.cons_append, List.takeWhile_cons]
    rw [h a (List.mem_cons_self a t)]
    simp only [if_true, List.cons.injEq, true_and]
    exact ih fun c hc => h c (List.mem_cons_of_mem a hc)

/-- Helper: dropWhile consumes a list it wholly satisfies. -/
lemma dropWhile_all_nil {p : Char → Bool} (l : List Char)
    (h : ∀ c ∈ l, p c = true) : l.dropWhile p = [] := by
  induction l with
  | nil => rfl
  | cons a t ih =>
    rw [List.dropWhile_cons, h a (List.mem_cons_self a t)]
    simp only [if_true]
    exact ih fun c hc => h c (List.mem_cons_of_mem a hc)

/-- Helper: dropWhile is the identity when the head fails the predicate. -/
lemma dropWhile_eq_self_head {p : Char → Bool} (l : List Char)
    (h : ∀ x, l.head? = some x → p x = false) : l.dropWhile p = l := by
  cases l with
  | nil => rfl
  | cons a t =>
    rw [List.dropWhile_cons, h a rfl]
    simp

/-- Helper: the head surviving dropWhile fails the predicate. -/
lemma dropWhile_head?_false {p : Char → Bool} (l : List Char) (c : Char)
    (h : (l.dropWhile p).head? = some c) : p c = false := by
  have hm := List.head?_dropWhile_not p l
  rw [h] at hm
  exact hm

/-- Helper: splitFirst finds the first marker after a clean prefix. -/
lemma splitFirst_append {c : Char} (l1 l2 : List Char)
    (h : ∀ a ∈ l1, (a == c) = false) :
    splitFirst c (l1 ++ c :: l2) = some (l1, l2) := by
  unfold splitFirst
  have hp : ∀ a ∈ l1, (fun a => !(a == c)) a = true := by
    intro a ha
    simp [h a ha]
  rw [dropWhile_append_all l1 (c :: l2) hp, takeWhile_append_all l1 (c :: l2) hp]
  simp [List.dropWhile_cons, List.takeWhile_cons]

/-- Helper: splitFirst misses when the marker is absent. -/
lemma splitFirst_none {c : Char} (l : List Char)
    (h : ∀ a ∈ l, (a == c) = false) : splitFirst c l = none := by
  unfold splitFirst
  rw [dropWhile_all_nil l fun a ha => by rw [h a ha]; rfl]

/-- Helper: rdropWhile yields a prefix. -/
lemma rdropWhile_pre (p : Char → Bool) (l : List Char) :
    rdropWhile p l <+: l := by
  obtain ⟨t, ht⟩ := List.dropWhile_suffix (l := l.reverse) p
  refine ⟨t.reverse, ?_⟩
  unfold rdropWhile
  rw [← List.reverse_append, ht, List.reverse_reverse]

/-- Helper: the last element surviving rdropWhile fails the predicate. -/
lemma rdropWhile_getLast? (p : Char → Bool) (l : List Char) (c : Char)
    (h : (rdropWhile p l).getLast? = some c) : p c = false := by
  unfold rdropWhile at h
  rw [List.getLast?_reverse] at h
  exact dropWhile_head?_false _ _ h

/-- Helper: rdropWhile is the identity when the last element fails the
predicate. -/
lemma rdropWhile_eq_self (p : Char → Bool) (l : List Char)
    (h : ∀ x, l.getLast? = some x → p x = false) : rdropWhile p l = l := by
  unfold rdropWhile
  cases hl : l.reverse with
  | nil =>
    have : l = [] := List.reverse_eq_nil_iff.mp hl
    rw [this]
    rfl
  | cons a t =>
    have hga : l.getLast? = some a := by
      rw [← List.head?_reverse, hl]
      rfl
    rw [List.dropWhile_cons, h a hga]
    simp only [Bool.false_eq_true, if_false]
    rw [← hl, List.reverse_reverse]

/-- Helper: rdropWhile is idempotent. -/
lemma rdropWhile_idem (p : Char → Bool) (l : List Char) :
    rdropWhile p (rdropWhile p l) = rdropWhile p l :=
  rdropWhile_eq_self p _ fun x hx => rdropWhile_getLast? p l x hx

/-- Helper: strip is the identity when both ends fail the whitespace
test. -/
lemma pyStripL_eq_self (l : List Char)
    (hhead : ∀ x, l.head? = some x → isPySpace x = false)
    (hlast : ∀ x, l.getLast? = some x → isPySpace x = false) :
    pyStripL l = l := by
  unfold pyStripL
  rw [dropWhile_eq_self_head l hhead]
  exact rdropWhile_eq_self _ l hlast

/-! Theorems: analysis of the URL normalizer used by the engine. -/

lemma toHexAux_length : ∀ (k n : Nat) (acc : List Char),
    (sha256_hex.toHexAux k n acc).length = k + acc.length := by
  intro k
  induction k with
  | zero => intro n acc; simp [sha256_hex.toHexAux]
  | succ m ih =>
    intro n acc
    rw [sha256_hex.toHexAux, ih]
    simp only [List.length_cons]
    omega

lemma sha256_hex_ne_empty (s : String) : sha256_hex s ≠ "" := by
  intro h
  have hlen := toHexAux_length 64
    (s.data.foldl (fun a c => (a * 131 + c.toNat + 17) % (2 ^ 256)) 7) []
  rw [show sha256_hex.toHexAux 64
      (s.data.foldl (fun a c => (a * 131 + c.toNat + 17) % (2 ^ 256)) 7) []
      = ("" : String).data from congrArg String.data h] at hlen
  simp at hlen

lemma startsWithHttp_https (x : List Char) :
    startsWithHttp ("https://".data ++ x) = true := by
  unfold startsWithHttp
  have hp : "https://".data.isPrefixOf ("https://".data ++ x) = true :=
    List.isPrefixOf_iff_prefix.mpr ⟨x, rfl⟩
  rw [hp, Bool.or_true]

lemma splitScheme_http (rest : List Char) :
    splitScheme ("http://".data ++ rest)
      = some ("http".data, '/' :: '/' :: rest) := by
  unfold splitScheme
  have hsp : splitFirst ':' ("http".data ++ ':' :: ('/' :: '/' :: rest))
      = some ("http".data, '/' :: '/' :: rest) :=
    splitFirst_append "http".data ('/' :: '/' :: rest) (by decide)
  rw [show ("http://".data ++ rest : List Char)
      = "http".data ++ ':' :: ('/' :: '/' :: rest) from rfl, hsp]
  rfl

lemma splitScheme_https (rest : List Char) :
    splitScheme ("https://".data ++ rest)
      = some ("https".data, '/' :: '/' :: rest) := by
  unfold splitScheme
  have hsp : splitFirst ':' ("https".data ++ ':' :: ('/' :: '/' :: rest))
      = some ("https".data, '/' :: '/' :: rest) :=
    splitFirst_append "https".data ('/' :: '/' :: rest) (by decide)
  rw [show ("https://".data ++ rest : List Char)
      = "https".data ++ ':' :: ('/' :: '/' :: rest) from rfl, hsp]
  rfl

lemma removeUnsafe_http (rest : List Char) :
    removeUnsafe ("http://".data ++ rest) = "http://".data ++ removeUnsafe rest := by
  unfold removeUnsafe
  rw [List.filter_append]
  rfl

lemma removeUnsafe_https (rest : List Char) :
    removeUnsafe ("https://".data ++ rest) = "https://".data ++ removeUnsafe rest := by
  unfold removeUnsafe
  rw [List.filter_append]
  rfl

lemma urlsplitAfterScheme_ok_scheme (s v : List Char) (r : ParseResult)
    (h : urlsplitAfterScheme s v = .ok r) : r.scheme = s := by
  unfold urlsplitAfterScheme at h
  split at h
  · simp at h
  · simp only [Except.ok.injEq] at h
    subst h
    rfl

lemma urlsplitM_scheme (l : List Char) (r : ParseResult)
    (hpre : startsWithHttp l = true) (hok : urlsplitM l = .ok r) :
    r.scheme = "http".data ∨ r.scheme = "https".data := by
  unfold startsWithHttp at hpre
  rw [Bool.or_eq_true] at hpre
  unfold urlsplitM at hok
  rcases hpre with hp | hp
  · obtain ⟨x, hx⟩ := List.isPrefixOf_iff_prefix.mp hp
    subst hx
    rw [removeUnsafe_http] at hok
    have hsor : splitSchemeOr ("http://".data ++ removeUnsafe x)
        = ("http".data, '/' :: '/' :: removeUnsafe x) := by
      unfold splitSchemeOr
      rw [splitScheme_http]
    rw [hsor] at hok
    exact Or.inl (urlsplitAfterScheme_ok_scheme _ _ _ hok)
  · obtain ⟨x, hx⟩ := List.isPrefixOf_iff_prefix.mp hp
    subst hx
    rw [removeUnsafe_https] at hok
    have hsor : splitSchemeOr ("https://".data ++ removeUnsafe x)
        = ("https".data, '/' :: '/' :: removeUnsafe x) := by
      unfold splitSchemeOr
      rw [splitScheme_https]
    rw [hsor] at hok
    exact Or.inr (urlsplitAfterScheme_ok_scheme _ _ _ hok)

lemma urlparseM_scheme (l : List Char) (r : ParseResult)
    (hpre : startsWithHttp l = true) (hok : urlparseM l = .ok r) :
    r.scheme = "http".data ∨ r.scheme = "https".data := by
  unfold urlparseM at hok
  split at hok
  · simp at hok
  · rename_i r0 heq
    have h0 := urlsplitM_scheme l r0 hpre heq
    split at hok
    · simp only [Except.ok.injEq] at hok
      subst hok
      exact h0
    · simp only [Except.ok.injEq] at hok
      subst hok
      exact h0

lemma addScheme_ne_nil (scheme url : List Char) (h : scheme ≠ []) :
    addScheme scheme url ≠ [] := by
  unfold addScheme
  rw [if_pos h]
  simp

lemma addQuery_ne_nil (url query : List Char) (h : url ≠ []) :
    addQuery url query ≠ [] := by
  unfold addQuery
  split
  · simp
  · exact h

lemma addFragment_ne_nil (url fragment : List Char) (h : url ≠ []) :
    addFragment url fragment ≠ [] := by
  unfold addFragment
  split
  · simp
  · exact h

lemma reassemble_ne_nil (r : ParseResult) (h : r.scheme ≠ []) :
    reassemble r ≠ [] := by
  unfold reassemble urlunparseM urlunsplitM
  apply addFragment_ne_nil
  apply addQuery_ne_nil
  apply addScheme_ne_nil
  exact h

lemma pyStripL_ne_nil (l : List Char) (c : Char) (hc : c ∈ l)
    (hcs : isPySpace c = false) : pyStripL l ≠ [] := by
  intro h
  unfold pyStripL rdropWhile at h
  rw [List.reverse_eq_nil_iff, List.dropWhile_eq_nil_iff] at h
  have hcd : c ∈ l.dropWhile isPySpace := by
    rcases List.mem_append.mp
        ((List.takeWhile_append_dropWhile (p := isPySpace) (l := l)) ▸ hc) with
      ht | hd
    · exact absurd (List.mem_takeWhile_imp ht) (by rw [hcs]; simp)
    · exact hd
  exact absurd (h c (List.mem_reverse.mpr hcd)) (by rw [hcs]; simp)

lemma normalizeLowered_ne_nil (u3 : List Char) (hpre : startsWithHttp u3 = true)
    (hne : pyStripL u3 ≠ []) : normalizeLowered u3 ≠ [] := by
  unfold normalizeLowered
  split
  · rename_i r heq
    apply reassemble_ne_nil
    rcases urlparseM_scheme u3 r hpre heq with h | h <;> rw [h] <;> simp
  · intro hcontra
    rw [toLowerL, List.map_eq_nil_iff] at hcontra
    exact hne hcontra

lemma mem_h_of_startsWithHttp (l : List Char) (h : startsWithHttp l = true) :
    'h' ∈ l := by
  unfold startsWithHttp at h
  rw [Bool.or_eq_true] at h
  rcases h with hp | hp
  · obtain ⟨x, hx⟩ := List.isPrefixOf_iff_prefix.mp hp
    rw [← hx]
    simp
  · obtain ⟨x, hx⟩ := List.isPrefixOf_iff_prefix.mp hp
    rw [← hx]
    simp

lemma normalizeStripped_ne_nil (u1 : List Char) : normalizeStripped u1 ≠ [] := by
  unfold normalizeStripped
  by_cases hs : startsWithHttp (toLowerL u1) = true
  · rw [if_pos hs]
    apply normalizeLowered_ne_nil _ hs
    exact pyStripL_ne_nil _ 'h' (mem_h_of_startsWithHttp _ hs) (by decide)
  · rw [if_neg hs]
    have hdist : toLowerL ("https://".data ++ u1)
        = "https://".data ++ toLowerL u1 := by
      unfold toLowerL
      rw [List.map_append]
      rfl
    rw [hdist]
    apply normalizeLowered_ne_nil _ (startsWithHttp_https (toLowerL u1))
    exact pyStripL_ne_nil _ 'h' (by simp) (by decide)

lemma normalize_url_ne_empty (u : String) (h : pyStripL u.data ≠ []) :
    normalize_url u ≠ "" := by
  unfold normalize_url normalizeL
  rw [if_neg (by simpa [List.isEmpty_iff] using h)]
  intro hc
  exact normalizeStripped_ne_nil (pyStripL u.data) (congrArg String.data hc)

/-! Theorems: workflow state machine. -/

/-- Helper: a transition that can_transition allows is in the table. -/
lemma can_transition_true_table (c : Case) (t : CaseState) (u : User)
    (h : (can_transition c t u).1 = true) :
    ∃ tr, transitions_map c.state t = some tr := by
  unfold can_transition at h
  cases htm : transitions_map c.state t with
  | none => rw [htm] at h; simp at h
  | some tr => exact ⟨tr, rfl⟩

/-- C1: the claim says permission checks order roles victim < officer <
admin, so a victim is denied IN_REVIEW to APPROVED with an
insufficient-role reason while an admin acting on the unassigned case
succeeds. The code compares the role-name strings, which orders
admin < officer < victim: on the same unassigned IN_REVIEW case the victim
is allowed and the admin is denied with the insufficient-role reason. -/
theorem C1_role_check_divergence :
    can_transition exReviewCase .approved exVictim =
      (true, "Officer approves the takedown request")
    ∧ can_transition exReviewCase .approved exAdmin =
      (false, "User role admin insufficient for this action (requires officer)") :=
  ⟨rfl, rfl⟩

/-- C2 (amended): every successful transition_case sets due_by to the SLA
deadline of the target state (now plus 24h, 72h, 48h, 24h for SUBMITTED,
IN_REVIEW, ESCALATED, MATCH_FOUND), overwriting any prior deadline; for a
target with no configured SLA (APPROVED, REJECTED, COMPLETED) due_by is
left unchanged, retaining any prior deadline. -/
theorem C2_sla_on_transition (c : Case) (to_state : CaseState) (user : User)
    (notes : Option String) (now : Nat) (c2 : Case) (e : CaseEvent)
    (hok : transition_case c to_state user notes now = .ok (c2, e)) :
    (∀ cfg, sla_map to_state = some cfg →
      c2.due_by = some (now + cfg.sla_hours * 3600))
    ∧ (sla_map to_state = none → c2.due_by = c.due_by)
    ∧ calculate_sla_deadline .submitted now = some (now + 24 * 3600)
    ∧ calculate_sla_deadline .in_review now = some (now + 72 * 3600)
    ∧ calculate_sla_deadline .escalated now = some (now + 48 * 3600)
    ∧ calculate_sla_deadline .match_found now = some (now + 24 * 3600)
    ∧ calculate_sla_deadline .approved now = none
    ∧ calculate_sla_deadline .rejected now = none
    ∧ calculate_sla_deadline .completed now = none := by
  have hdue : c2.due_by =
      (match calculate_sla_deadline to_state now with
       | some d => some d
       | none => c.due_by) := by
    simp only [transition_case] at hok
    by_cases hcan : (can_transition c to_state user).1 = true
    · rw [if_pos hcan] at hok
      cases htm : transitions_map c.state to_state with
      | none => rw [htm] at hok; exact absurd hok (by simp)
      | some tr =>
        rw [htm] at hok
        simp only [Except.ok.injEq, Prod.mk.injEq] at hok
        obtain ⟨hc2, -⟩ := hok
        subst hc2
        rfl
    · rw [if_neg hcan] at hok
      exact absurd hok (by simp)
  refine ⟨?_, ?_, rfl, rfl, rfl, rfl, rfl, rfl, rfl⟩
  · intro cfg hcfg
    have hcalc : calculate_sla_deadline to_state now =
        some (now + cfg.sla_hours * 3600) := by
      simp [calculate_sla_deadline, hcfg]
    rw [hdue, hcalc]
  · intro hcfg
    have hcalc : calculate_sla_deadline to_state now = none := by
      simp [calculate_sla_deadline, hcfg]
    rw [hdue, hcalc]

/-- Witness for C2: an officer moves the SUBMITTED exOverdueCase into
IN_REVIEW at time 999; due_by becomes 999 + 72 hours. -/
theorem C2_sla_on_transition_witness :
    exTransResult.due_by = some (999 + 72 * 3600) := by
  have h := C2_sla_on_transition exOverdueCase .in_review exOfficer none 999
    exTransResult exTransEvent (by rfl)
  exact h.1 ⟨.in_review, 72, some .escalated,
    "Review must be completed within 72 hours"⟩ rfl

/-- Counterexample for C2 as stated: transitioning the IN_REVIEW case
exReviewCase (prior deadline 100) into APPROVED leaves due_by = some 100;
the claim says due_by is unset/null after a transition into APPROVED. -/
theorem C2_counterexample :
    (transition_case exReviewCase .approved exOfficer none 999).toOption.map
      (fun p => p.1.due_by) = some (some 100)
    ∧ some (100 : Nat) ≠ (none : Option Nat) :=
  ⟨rfl, by simp⟩

/-- C6: can_transition is false, with the not-allowed reason, for every
(from, to) pair absent from the transition table, for every actor; and
COMPLETED is terminal: no table entry leaves it, so every target is denied
from COMPLETED for every role. -/
theorem C6_closure (c : Case) (to_state : CaseState) (user : User) :
    (transitions_map c.state to_state = none →
      can_transition c to_state user =
        (false, "Transition from " ++ c.state.value ++ " to "
          ++ to_state.value ++ " is not allowed"))
    ∧ (∀ t, transitions_map CaseState.completed t = none) := by
  constructor
  · intro h
    simp [can_transition, h]
  · intro t
    cases t <;> rfl

/-- Witness for C6: from the COMPLETED case every transition is denied,
even for an admin. -/
theorem C6_closure_witness :
    can_transition exCompletedCase .submitted exAdmin =
      (false, "Transition from completed to submitted is not allowed") := by
  have h := C6_closure exCompletedCase .submitted exAdmin
  exact h.1 (h.2 .submitted)

/-- C5: escalate_overdue_case with the admin system actor: when the current
state has no escalation target (ESCALATED, or any state absent from the SLA
table) it returns false leaving the case unchanged; when it has one
(SUBMITTED, IN_REVIEW, MATCH_FOUND, each targeting ESCALATED) it performs
the transition with a note recording the breached deadline and returns
true, returning false with the case unchanged exactly when can_transition
rejects the transition. -/
theorem C5_escalate (c : Case) (user : User) (now : Nat)
    (hrole : user.role = .admin) :
    (escalation_target c.state = none →
      escalate_overdue_case c user now = (false, c, none))
    ∧ (∀ esc, escalation_target c.state = some esc →
        ((can_transition c esc user).1 = true →
          ∃ c2 e, escalate_overdue_case c user now = (true, c2, some e)
            ∧ c2.state = esc
            ∧ e.action = "STATE_CHANGE"
            ∧ ∃ r aa, e.metadata =
                .stateChange c.state.value esc.value r aa
                  (some (slaBreachNote c.due_by)))
        ∧ ((can_transition c esc user).1 = false →
          escalate_overdue_case c user now = (false, c, none)))
    ∧ escalation_target .submitted = some .escalated
    ∧ escalation_target .in_review = some .escalated
    ∧ escalation_target .match_found = some .escalated
    ∧ escalation_target .escalated = none
    ∧ escalation_target .approved = none
    ∧ escalation_target .rejected = none
    ∧ escalation_target .completed = none := by
  refine ⟨?_, ?_, rfl, rfl, rfl, rfl, rfl, rfl, rfl⟩
  · intro htgt
    unfold escalation_target at htgt
    cases hsla : sla_map c.state with
    | none => simp [escalate_overdue_case, hsla]
    | some cfg =>
      rw [hsla] at htgt
      simp only [Option.some_bind] at htgt
      simp [escalate_overdue_case, hsla, htgt]
  · intro esc htgt
    unfold escalation_target at htgt
    cases hsla : sla_map c.state with
    | none => rw [hsla] at htgt; simp at htgt
    | some cfg =>
      rw [hsla] at htgt
      simp only [Option.some_bind] at htgt
      constructor
      · intro hcan
        obtain ⟨tr, htr⟩ := can_transition_true_table c esc user hcan
        have htc : transition_case c esc user
            (some (slaBreachNote c.due_by)) now =
            .ok ({ c with
                state := esc
                updated_at := now
                assigned_officer_id :=
                  if tr.auto_assign && !optStrTruthy c.assigned_officer_id then
                    some user.id
                  else c.assigned_officer_id
                due_by :=
                  match calculate_sla_deadline esc now with
                  | some d => some d
                  | none => c.due_by },
              { case_id := c.id
                actor_id := user.id
                actor_role := user.role.value
                action := "STATE_CHANGE"
                metadata := .stateChange c.state.value esc.value
                  (can_transition c esc user).2 tr.auto_assign
                  (some (slaBreachNote c.due_by)) }) := by
          simp only [transition_case]
          rw [if_pos hcan, htr]
        refine ⟨{ c with
            state := esc
            updated_at := now
            assigned_officer_id :=
              if tr.auto_assign && !optStrTruthy c.assigned_officer_id then
                some user.id
              else c.assigned_officer_id
            due_by :=
              match calculate_sla_deadline esc now with
              | some d => some d
              | none => c.due_by },
          { case_id := c.id
            actor_id := user.id
            actor_role := user.role.value
            action := "STATE_CHANGE"
            metadata := .stateChange c.state.value esc.value
              (can_transition c esc user).2 tr.auto_assign
              (some (slaBreachNote c.due_by)) },
          ?_, rfl, rfl, (can_transition c esc user).2, tr.auto_assign, rfl⟩
        simp [escalate_overdue_case, hsla, htgt, htc]
      · intro hcan
        have htc : transition_case c esc user
            (some (slaBreachNote c.due_by)) now =
            .error (can_transition c esc user).2 := by
          simp only [transition_case]
          rw [if_neg (by simp [hcan])]
        simp [escalate_overdue_case, hsla, htgt, htc]

/-- Witness for C5: the overdue SUBMITTED case is escalated by the system
actor: escalate returns true, the case lands in ESCALATED and the
STATE_CHANGE event records the breached deadline. -/
theorem C5_escalate_witness :
    ∃ c2 e, escalate_overdue_case exOverdueCase exSystem 5000 = (true, c2, some e)
      ∧ c2.state = .escalated
      ∧ e.action = "STATE_CHANGE"
      ∧ ∃ r aa, e.metadata =
          .stateChange "submitted" "escalated" r aa
            (some (slaBreachNote (some 50))) := by
  have h := C5_escalate exOverdueCase exSystem 5000 rfl
  exact (h.2.1 .escalated rfl).1 rfl

/-! Theorems: deduplication / idempotency engine. -/

/-- Helper: with pairwise-distinct keys, filtering on the key of a stored
element finds exactly that element. -/
lemma filter_key_unique {α : Type} (f : α → String) :
    ∀ (l : List α) (a : α) (b : String), f a = b → (l.map f).Nodup → a ∈ l →
      l.filter (fun x => f x == b) = [a] := by
  intro l
  induction l with
  | nil => intro a b _ _ ha; cases ha
  | cons x t ih =>
    intro a b hfa hnd ha
    simp only [List.map_cons, List.nodup_cons] at hnd
    obtain ⟨hnotin, hndt⟩ := hnd
    rcases List.mem_cons.mp ha with rfl | hat
    · rw [List.filter_cons]
      have hpx : (f a == b) = true := by simp [hfa]
      rw [hpx]
      simp only [if_true]
      have hrest : t.filter (fun x => f x == b) = [] := by
        rw [List.filter_eq_nil_iff]
        intro y hy
        simp only [beq_iff_eq]
        intro hfy
        exact hnotin ((hfa.trans hfy.symm) ▸ List.mem_map_of_mem f hy)
      rw [hrest]
    · rw [List.filter_cons]
      have hpx : (f x == b) = false := by
        simp only [beq_eq_false_iff_ne]
        intro heq
        apply hnotin
        rw [heq, ← hfa]
        exact List.mem_map_of_mem f hat
      rw [hpx]
      simp only [Bool.false_eq_true, if_false]
      exact ih a b hfa hndt hat

/-- Helper: when the present values of g are pairwise distinct across the
list, at most one element matches any given value. -/
lemma nodup_filterMap_filter_le_one {α : Type} (g : α → Option String) :
    ∀ (l : List α) (h : String), (l.filterMap g).Nodup →
      (l.filter fun x => g x == some h).length ≤ 1 := by
  intro l
  induction l with
  | nil => intro h _; simp
  | cons x t ih =>
    intro h hnd
    rw [List.filter_cons]
    by_cases hgx : (g x == some h) = true
    · rw [hgx]
      simp only [if_true, List.length_cons]
      have hgx2 : g x = some h := by simpa using hgx
      rw [List.filterMap_cons, hgx2] at hnd
      have hnotin : h ∉ t.filterMap g := (List.nodup_cons.mp hnd).1
      have hrest : t.filter (fun y => g y == some h) = [] := by
        rw [List.filter_eq_nil_iff]
        intro y hy
        simp only [beq_iff_eq]
        intro hgy
        exact hnotin (List.mem_filterMap.mpr ⟨y, hy, hgy⟩)
      rw [hrest]
      simp
    · rw [Bool.not_eq_true] at hgx
      rw [hgx]
      simp only [Bool.false_eq_true, if_false]
      apply ih
      rw [List.filterMap_cons] at hnd
      cases hg : g x with
      | none => rw [hg] at hnd; exact hnd
      | some b => rw [hg] at hnd; exact hnd.of_cons

/-- Helper: a case found by check_existing_case is stored. -/
lemma check_existing_some_mem (db : DB) (uh fh : Option String) (c : Case)
    (h : check_existing_case db uh fh = .ok (some c)) : c ∈ db.cases := by
  simp only [check_existing_case] at h
  by_cases hnn : uh = none ∧ fh = none
  · rw [if_pos hnn] at h; simp at h
  · rw [if_neg hnn] at h
    cases hf : db.cases.filter (fun c =>
        (match uh with | some h => c.url_hash == some h | none => false)
        || (match fh with | some h => c.file_hash == some h | none => false)) with
    | nil => rw [hf] at h; simp at h
    | cons c0 rest =>
      cases rest with
      | nil =>
        rw [hf] at h
        simp only [Except.ok.injEq, Option.some.injEq] at h
        subst h
        exact List.mem_of_mem_filter (by rw [hf]; exact List.mem_singleton.mpr rfl)
      | cons c1 rest2 => rw [hf] at h; simp at h

/-- Helper: a dedup-path plan that reports an existing case writes exactly
one linked_submission event plus, when a key was supplied, its binding. -/
lemma dedupLookupPlan_dup_inv (db : DB) (submitter : User)
    (processed : ProcessedSubmission) (description : Option String)
    (keyStr : String) (now : Nat) (new_id : String) (p : SubmissionPlan)
    (h : dedupLookupPlan db submitter processed description keyStr now new_id = .ok p)
    (hfalse : p.is_new = false) :
    p.result_case ∈ db.cases ∧ p.new_cases = [] ∧ p.new_dedup = []
    ∧ p.new_events = [create_link_event p.result_case submitter now]
    ∧ ((keyStr = "" ∧ p.new_keys = [])
       ∨ (keyStr ≠ "" ∧ p.new_keys = [(keyStr, p.result_case.id)])) := by
  unfold dedupLookupPlan at h
  split at h
  · simp at h
  · rename_i existing hexist
    simp only [Except.ok.injEq] at h
    subst h
    refine ⟨check_existing_some_mem _ _ _ _ hexist, rfl, rfl, rfl, ?_⟩
    by_cases hks : keyStr ≠ ""
    · right
      refine ⟨hks, ?_⟩
      simp only [if_pos hks]
    · left
      rw [not_not] at hks
      refine ⟨hks, ?_⟩
      simp only [hks]
      rfl
  · simp only [Except.ok.injEq] at h
    subst h
    simp at hfalse

lemma compute_file_hash_blank (f : String)
    (h : (pyStripL f.data).isEmpty = true) : compute_file_hash f = "" := by
  unfold compute_file_hash
  by_cases hf : f = ""
  · rw [if_pos hf]
  · rw [if_neg hf]
    rw [List.isEmpty_iff] at h
    rw [h]
    rfl

lemma process_submission_has_content (url file_hash : Option String) :
    (process_submission url file_hash).has_content
      = (urlSuppliedNonblank url || fileHashValid file_hash) := by
  cases url with
  | none =>
    cases file_hash with
    | none => rfl
    | some f =>
      by_cases hsf : (pyStripL f.data).isEmpty = true
      · simp [process_submission, urlSuppliedNonblank, fileHashValid, hsf,
          compute_file_hash_blank f hsf]
      · rw [Bool.not_eq_true] at hsf
        by_cases hv : compute_file_hash f = ""
        · simp [process_submission, urlSuppliedNonblank, fileHashValid, hsf, hv]
        · simp [process_submission, urlSuppliedNonblank, fileHashValid, hsf, hv]
  | some u =>
    by_cases hsu : (pyStripL u.data).isEmpty = true
    · cases file_hash with
      | none => simp [process_submission, urlSuppliedNonblank, fileHashValid, hsu]
      | some f =>
        by_cases hsf : (pyStripL f.data).isEmpty = true
        · simp [process_submission, urlSuppliedNonblank, fileHashValid, hsu, hsf,
            compute_file_hash_blank f hsf]
        · rw [Bool.not_eq_true] at hsf
          by_cases hv : compute_file_hash f = ""
          · simp [process_submission, urlSuppliedNonblank, fileHashValid, hsu, hsf, hv]
          · simp [process_submission, urlSuppliedNonblank, fileHashValid, hsu, hsf, hv]
    · rw [Bool.not_eq_true] at hsu
      cases file_hash with
      | none => simp [process_submission, urlSuppliedNonblank, fileHashValid, hsu]
      | some f =>
        by_cases hsf : (pyStripL f.data).isEmpty = true
        · simp [process_submission, urlSuppliedNonblank, fileHashValid, hsu, hsf]
        · rw [Bool.not_eq_true] at hsf
          by_cases hv : compute_file_hash f = ""
          · simp [process_submission, urlSuppliedNonblank, fileHashValid, hsu, hsf, hv]
          · simp [process_submission, urlSuppliedNonblank, fileHashValid, hsu, hsf, hv]

lemma check_idem_error (db : DB) (k : String) (e : CreateError)
    (h : check_idempotency_key db k = .error e) : e = .multipleResultsFound := by
  simp only [check_idempotency_key] at h
  by_cases hk : k = ""
  · rw [if_pos hk] at h; simp at h
  · rw [if_neg hk] at h
    cases hf : db.idem_keys.filter (fun kv => kv.1 == k) with
    | nil => rw [hf] at h; simp at h
    | cons a rest =>
      cases rest with
      | nil => rw [hf] at h; simp at h
      | cons b r2 =>
        rw [hf] at h
        simp only [Except.error.injEq] at h
        exact h.symm

lemma check_existing_error (db : DB) (uh fh : Option String) (e : CreateError)
    (h : check_existing_case db uh fh = .error e) : e = .multipleResultsFound := by
  simp only [check_existing_case] at h
  by_cases hnn : uh = none ∧ fh = none
  · rw [if_pos hnn] at h; simp at h
  · rw [if_neg hnn] at h
    cases hf : db.cases.filter (fun c =>
        (match uh with | some h => c.url_hash == some h | none => false)
        || (match fh with | some h => c.file_hash == some h | none => false)) with
    | nil => rw [hf] at h; simp at h
    | cons c0 rest =>
      cases rest with
      | nil => rw [hf] at h; simp at h
      | cons c1 r2 =>
        rw [hf] at h
        simp only [Except.error.injEq] at h
        exact h.symm

lemma create_case_no_validation (db : DB) (submitter : User)
    (url file_hash description idempotency_key : Option String)
    (now : Nat) (new_id : String)
    (hcontent : (process_submission url file_hash).has_content = true)
    (msg : String) :
    create_case db submitter url file_hash description idempotency_key now new_id
      ≠ .error (.validationError msg) := by
  intro hmsg
  unfold create_case at hmsg
  split at hmsg
  · rename_i e hplan
    simp only [Except.error.injEq] at hmsg
    subst hmsg
    simp only [create_case_plan, hcontent, Bool.not_true, Bool.false_eq_true,
      if_false] at hplan
    split at hplan
    · rename_i e2 hkey
      simp only [Except.error.injEq] at hplan
      subst hplan
      by_cases hks : (idempotency_key.getD "" : String) ≠ ""
      · rw [if_pos hks] at hkey
        have := check_idem_error _ _ _ hkey
        simp at this
      · rw [if_neg hks] at hkey
        simp at hkey
    · split at hplan <;> simp at hplan
    · unfold dedupLookupPlan at hplan
      split at hplan
      · rename_i e2 hex
        simp only [Except.error.injEq] at hplan
        subst hplan
        have := check_existing_error _ _ _ _ hex
        simp at this
      · simp at hplan
      · simp at hplan
  · split at hmsg
    · rename_i hcommit
      unfold commit_plan at hcommit
      split at hcommit
      · simp only [Except.error.injEq] at hcommit hmsg
        rw [← hcommit] at hmsg
        simp at hmsg
      · simp at hcommit
    · simp at hmsg

lemma nodup_map_filter_le_one {α : Type} (f : α → String) :
    ∀ (l : List α) (b : String), (l.map f).Nodup →
      (l.filter fun x => f x == b).length ≤ 1 := by
  intro l
  induction l with
  | nil => intro b _; simp
  | cons x t ih =>
    intro b hnd
    simp only [List.map_cons, List.nodup_cons] at hnd
    obtain ⟨hnotin, hndt⟩ := hnd
    rw [List.filter_cons]
    by_cases hfx : (f x == b) = true
    · rw [hfx]
      simp only [if_true, List.length_cons]
      have hfx2 : f x = b := by simpa using hfx
      have hrest : t.filter (fun y => f y == b) = [] := by
        rw [List.filter_eq_nil_iff]
        intro y hy
        simp only [beq_iff_eq]
        intro hfy
        exact hnotin ((hfx2.trans hfy.symm) ▸ List.mem_map_of_mem f hy)
      rw [hrest]
      simp
    · rw [Bool.not_eq_true] at hfx
      rw [hfx]
      simp only [Bool.false_eq_true, if_false]
      exact ih b hndt

lemma commit_plan_ok_of_ok (db : DB) (p : SubmissionPlan)
    (h : violatesConstraints db p = false) :
    commit_plan db p = .ok ⟨db.cases ++ p.new_cases, db.dedup ++ p.new_dedup,
      db.idem_keys ++ p.new_keys, db.events ++ p.new_events⟩ := by
  unfold commit_plan
  rw [if_neg]
  rw [h]
  simp

lemma dedupLookupPlan_commit_ok (db : DB) (submitter : User)
    (processed : ProcessedSubmission) (description : Option String)
    (keyStr : String) (now : Nat) (new_id : String)
    (hurlnd : (db.cases.filterMap Case.url_hash).Nodup)
    (hdcov : ∀ r ∈ db.dedup, ∀ h ∈ r.url_hash.toList,
      ∃ c ∈ db.cases, c.url_hash = some h)
    (hup : processed.url_hash ≠ "")
    (hpf : processed.file_hash = "")
    (hnokey : keyStr ≠ "" → db.idem_keys.filter (fun kv => kv.1 == keyStr) = []) :
    ∃ p db2, dedupLookupPlan db submitter processed description keyStr now new_id
        = .ok p
      ∧ commit_plan db p = .ok db2 := by
  have hkeyany : ∀ cid : String,
      ((if keyStr ≠ "" then [(keyStr, cid)] else [] : List (String × String)).any
        fun kv => db.idem_keys.any fun kv0 => kv0.1 == kv.1) = false := by
    intro cid
    by_cases hks : keyStr ≠ ""
    · rw [if_pos hks]
      simp only [List.any_cons, List.any_nil, Bool.or_false]
      rw [List.any_eq_false]
      intro kv0 h0
      have hnil := List.filter_eq_nil_iff.mp (hnokey hks)
      exact hnil kv0 h0
    · rw [if_neg hks]
      rfl
  have hupE : processed.url_hash.isEmpty = false := by
    rw [Bool.eq_false_iff]
    intro hT
    exact hup ((String.isEmpty_iff _).mp hT)
  unfold dedupLookupPlan
  rw [if_pos hup, hpf, if_neg (by simp)]
  simp only [check_existing_case, Bool.or_false]
  rw [if_neg (by simp)]
  have hle := nodup_filterMap_filter_le_one Case.url_hash db.cases
    processed.url_hash hurlnd
  cases hfil : db.cases.filter (fun c => c.url_hash == some processed.url_hash) with
  | nil =>
    simp only
    refine ⟨_, _, rfl, commit_plan_ok_of_ok _ _ ?_⟩
    have hdany : (db.dedup.any fun r0 => r0.url_hash == some processed.url_hash)
        = false := by
      rw [List.any_eq_false]
      intro r0 hr0 htrue
      have hr0h : r0.url_hash = some processed.url_hash := by simpa using htrue
      obtain ⟨c, hcmem, hch⟩ := hdcov r0 hr0 processed.url_hash
        (by rw [hr0h]; simp)
      have hnone := List.filter_eq_nil_iff.mp hfil
      exact hnone c hcmem (by simp [hch])
    simp [violatesConstraints, create_dedup_entries, optStrTruthy,
      hup, hpf, hupE, hdany, hkeyany new_id]
    intro hks x hmem
    have hnil := List.filter_eq_nil_iff.mp (hnokey hks)
    exact hnil (keyStr, x) hmem (by simp)
  | cons c0 rest =>
    cases rest with
    | nil =>
      simp only
      refine ⟨_, _, rfl, commit_plan_ok_of_ok _ _ ?_⟩
      simp [violatesConstraints, hkeyany c0.id]
      intro hks x hmem
      have hnil := List.filter_eq_nil_iff.mp (hnokey hks)
      exact hnil (keyStr, x) hmem (by simp)
    | cons c1 r2 =>
      rw [hfil] at hle
      simp at hle

lemma processed_url_hash_eq (u : String) (file_hash : Option String)
    (hsu : (pyStripL u.data).isEmpty = false) :
    (process_submission (some u) file_hash).url_hash
      = compute_url_hash (normalize_url u) := by
  cases file_hash with
  | none => simp [process_submission, hsu]
  | some f =>
    by_cases hsf : (pyStripL f.data).isEmpty = true
    · simp [process_submission, hsu, hsf]
    · rw [Bool.not_eq_true] at hsf
      by_cases hv : compute_file_hash f = ""
      · simp [process_submission, hsu, hsf, hv]
      · simp [process_submission, hsu, hsf, hv]

lemma processed_file_hash_empty (u : String) (file_hash : Option String)
    (hsu : (pyStripL u.data).isEmpty = false)
    (hfv : fileHashValid file_hash = false) :
    (process_submission (some u) file_hash).file_hash = "" := by
  cases file_hash with
  | none => simp [process_submission, hsu]
  | some f =>
    have hv : compute_file_hash f = "" := by
      simp only [fileHashValid, Bool.not_eq_true'] at hfv
      simpa using hfv
    by_cases hsf : (pyStripL f.data).isEmpty = true
    · simp [process_submission, hsu, hsf]
    · rw [Bool.not_eq_true] at hsf
      simp [process_submission, hsu, hsf, hv]

lemma dedup_path_ok (db : DB) (submitter : User)
    (url file_hash description idempotency_key : Option String)
    (now : Nat) (new_id : String)
    (hcontent : (process_submission url file_hash).has_content = true)
    (hurlnd : (db.cases.filterMap Case.url_hash).Nodup)
    (hdcov : ∀ r ∈ db.dedup, ∀ h ∈ r.url_hash.toList,
      ∃ c ∈ db.cases, c.url_hash = some h)
    (hup : (process_submission url file_hash).url_hash ≠ "")
    (hpf : (process_submission url file_hash).file_hash = "")
    (hkeynone : (if (idempotency_key.getD "" : String) ≠ "" then
        check_idempotency_key db (idempotency_key.getD "") else .ok none)
      = (.ok none : Except CreateError (Option String)))
    (hkeyfilter : (idempotency_key.getD "" : String) ≠ "" →
      db.idem_keys.filter (fun kv => kv.1 == idempotency_key.getD "") = []) :
    ∃ out, create_case db submitter url file_hash description idempotency_key
      now new_id = .ok out := by
  obtain ⟨p, db2, hp, hc⟩ := dedupLookupPlan_commit_ok db submitter
    (process_submission url file_hash) description (idempotency_key.getD "")
    now new_id hurlnd hdcov hup hpf hkeyfilter
  have hplan : create_case_plan db submitter url file_hash description
      idempotency_key now new_id = .ok p := by
    simp only [create_case_plan, hcontent, Bool.not_true, Bool.false_eq_true,
      if_false]
    rw [hkeynone]
    simp only
    exact hp
  refine ⟨⟨p.result_case, p.is_new, db2⟩, ?_⟩
  unfold create_case
  rw [hplan]
  simp only
  rw [hc]

lemma key_replay_ok (db : DB) (submitter : User)
    (url file_hash description : Option String) (k : String)
    (now : Nat) (new_id : String) (c : Case)
    (hk : k ≠ "")
    (hkeys : (db.idem_keys.map Prod.fst).Nodup)
    (hids : (db.cases.map Case.id).Nodup)
    (hmem : (k, c.id) ∈ db.idem_keys) (hc : c ∈ db.cases)
    (hcontent : (process_submission url file_hash).has_content = true) :
    create_case db submitter url file_hash description (some k) now new_id
      = .ok ⟨c, false, db⟩ := by
  have hkfilter : db.idem_keys.filter (fun kv => kv.1 == k) = [(k, c.id)] :=
    filter_key_unique Prod.fst db.idem_keys (k, c.id) k rfl hkeys hmem
  have hcfilter : db.cases.filter (fun x => x.id == c.id) = [c] :=
    filter_key_unique Case.id db.cases c c.id rfl hids hc
  simp only [create_case, create_case_plan, hcontent, Bool.not_true,
    Bool.false_eq_true, if_false, Option.getD_some]
  rw [if_pos hk]
  unfold check_idempotency_key
  rw [if_neg hk, hkfilter]
  simp only
  rw [hcfilter]
  simp only [commit_plan, violatesConstraints, List.any_nil, Bool.or_self,
    Bool.false_eq_true, if_false]
  simp [List.append_nil]

/-- C4 (amended): once a submission passes the content-required validation,
an idempotency key that already maps to a stored case short-circuits
create_case: the bound case is returned with isNew false before any
content-based dedup check, nothing is written, and which url, file hash or
description the new request carried is ignored. -/
theorem C4_key_precedence (db : DB) (submitter : User)
    (url file_hash description : Option String) (k : String)
    (now : Nat) (new_id : String) (c : Case)
    (hk : k ≠ "")
    (hkeys : (db.idem_keys.map Prod.fst).Nodup)
    (hids : (db.cases.map Case.id).Nodup)
    (hmem : (k, c.id) ∈ db.idem_keys) (hc : c ∈ db.cases)
    (hcontent : (process_submission url file_hash).has_content = true) :
    create_case db submitter url file_hash description (some k) now new_id
      = .ok ⟨c, false, db⟩ :=
  key_replay_ok db submitter url file_hash description k now new_id c
    hk hkeys hids hmem hc hcontent

/-- Counterexample for C4 as stated: a replay of the bound key k1 carrying
no content at all (no url, invalid file hash) raises the content-required
ValueError instead of returning the bound case: the content fields are not
ignored entirely, the validation runs first. -/
theorem C4_counterexample :
    create_case dbAfterA exVictim none (some "zz") none (some "k1") 2000 "case-b"
      = .error (.validationError "Either URL or file_hash must be provided") :=
  rfl

/-- Witness for C4: key k1 first bound with url https://a.com; replaying k1
with url https://b.com returns the same case unchanged with isNew false,
and the case still carries url https://a.com. -/
theorem C4_key_precedence_witness :
    create_case dbAfterA exVictim (some "https://b.com") none none (some "k1")
      2000 "case-b" = .ok ⟨aComCase, false, dbAfterA⟩
    ∧ create_case emptyDB exVictim (some "https://a.com") none none (some "k1")
      1000 "case-a" = .ok ⟨aComCase, true, dbAfterA⟩
    ∧ aComCase.url = "https://a.com" :=
  ⟨C4_key_precedence dbAfterA exVictim (some "https://b.com") none none "k1"
      2000 "case-b" aComCase (by decide) (List.nodup_singleton _)
      (List.nodup_singleton _) (List.mem_singleton.mpr rfl)
      (List.mem_singleton.mpr rfl) (by rfl),
    rfl, rfl⟩

/-- C10: whenever create_case resolves a submission as a duplicate (isNew
false), the stored cases and the dedup index are untouched (so every field
of the returned existing case is unchanged), and the appends are attributed
to the path taken: on the key-replay path (the supplied nonblank key
resolves to the returned case) no event and no key binding is appended at
all, while on the hash-match path (the key lookup finds nothing) exactly
one linked_submission event is appended plus, exactly when a nonblank key
was supplied, its binding to the existing case. -/
theorem C10_duplicate_frame (db : DB) (submitter : User)
    (url file_hash description idempotency_key : Option String)
    (now : Nat) (new_id : String) (c : Case) (db2 : DB)
    (hok : create_case db submitter url file_hash description idempotency_key now new_id
      = .ok ⟨c, false, db2⟩) :
    c ∈ db.cases ∧ db2.cases = db.cases ∧ db2.dedup = db.dedup
    ∧ ((idempotency_key.getD "" ≠ ""
          ∧ check_idempotency_key db (idempotency_key.getD "")
              = .ok (some c.id)
          ∧ db2.events = db.events ∧ db2.idem_keys = db.idem_keys)
       ∨ (check_idempotency_key db (idempotency_key.getD "") = .ok none
          ∧ db2.events = db.events ++ [create_link_event c submitter now]
          ∧ (if idempotency_key.getD "" ≠ ""
             then db2.idem_keys
                = db.idem_keys ++ [(idempotency_key.getD "", c.id)]
             else db2.idem_keys = db.idem_keys))) := by
  unfold create_case at hok
  split at hok
  · simp at hok
  · rename_i p hplan
    split at hok
    · simp at hok
    · rename_i db3 hcommit
      simp only [Except.ok.injEq, CreateOutcome.mk.injEq] at hok
      obtain ⟨hcres, hnew, hdb3⟩ := hok
      unfold commit_plan at hcommit
      split at hcommit
      · simp at hcommit
      · simp only [Except.ok.injEq] at hcommit
        simp only [create_case_plan] at hplan
        split at hplan
        · simp at hplan
        · split at hplan
          · simp at hplan
          · rename_i cid hkeyeq
            split at hplan
            · rename_i c0 heqf
              simp only [Except.ok.injEq] at hplan
              subst hplan
              simp only at hcres hnew
              subst hcres
              have hks : idempotency_key.getD "" ≠ "" := by
                intro hkeq0
                rw [hkeq0] at hkeyeq
                simp at hkeyeq
              rw [if_pos hks] at hkeyeq
              have hc0 : c0 ∈ db.cases.filter (fun x => x.id == cid) := by
                rw [heqf]; exact List.mem_singleton.mpr rfl
              have hid : c0.id = cid := by
                have hpred := List.of_mem_filter hc0
                simpa using hpred
              rw [← hid] at hkeyeq
              refine ⟨List.mem_of_mem_filter hc0, ?_, ?_,
                Or.inl ⟨hks, hkeyeq, ?_, ?_⟩⟩
              all_goals rw [← hdb3, ← hcommit]; simp
            · simp at hplan
            · simp at hplan
          · rename_i hkeynone
            have hinv := dedupLookupPlan_dup_inv db submitter
              (process_submission url file_hash) description
              (idempotency_key.getD "") now new_id p hplan (by rw [hnew])
            obtain ⟨hmem, hnc, hnd, hne, hkeys⟩ := hinv
            subst hcres
            have hchk : check_idempotency_key db (idempotency_key.getD "")
                = .ok none := by
              by_cases hks : idempotency_key.getD "" ≠ ""
              · rw [if_pos hks] at hkeynone
                exact hkeynone
              · rw [not_not.mp hks]
                rfl
            refine ⟨hmem, ?_, ?_, Or.inr ⟨hchk, ?_, ?_⟩⟩
            · rw [← hdb3, ← hcommit, hnc]; simp
            · rw [← hdb3, ← hcommit, hnd]; simp
            · rw [← hdb3, ← hcommit, hne]
            · rcases hkeys with ⟨hks0, hempty⟩ | ⟨hks, hkv⟩
              · rw [if_neg (not_not.mpr hks0), ← hdb3, ← hcommit, hempty]
                simp
              · rw [if_pos hks, ← hdb3, ← hcommit, hkv]

/-- Witness for C10, both paths: replaying bound key k1 (with a different
url) appends nothing and leaves the store identical, and resubmitting
https://a.com without a key appends only the linked_submission event. -/
theorem C10_duplicate_frame_witness :
    (aComCase ∈ dbAfterA.cases ∧ dbAfterA.cases = dbAfterA.cases
     ∧ dbAfterA.dedup = dbAfterA.dedup
     ∧ (((some "k1" : Option String).getD "" ≠ ""
           ∧ check_idempotency_key dbAfterA ((some "k1" : Option String).getD "")
               = .ok (some aComCase.id)
           ∧ dbAfterA.events = dbAfterA.events
           ∧ dbAfterA.idem_keys = dbAfterA.idem_keys)
        ∨ (check_idempotency_key dbAfterA ((some "k1" : Option String).getD "")
             = .ok none
           ∧ dbAfterA.events
               = dbAfterA.events ++ [create_link_event aComCase exOfficer 2000]
           ∧ (if (some "k1" : Option String).getD "" ≠ ""
              then dbAfterA.idem_keys = dbAfterA.idem_keys
                ++ [((some "k1" : Option String).getD "", aComCase.id)]
              else dbAfterA.idem_keys = dbAfterA.idem_keys))))
    ∧ (aComCase ∈ dbAfterA.cases ∧ dbAfterALinked.cases = dbAfterA.cases
       ∧ dbAfterALinked.dedup = dbAfterA.dedup
       ∧ (((none : Option String).getD "" ≠ ""
             ∧ check_idempotency_key dbAfterA ((none : Option String).getD "")
                 = .ok (some aComCase.id)
             ∧ dbAfterALinked.events = dbAfterA.events
             ∧ dbAfterALinked.idem_keys = dbAfterA.idem_keys)
          ∨ (check_idempotency_key dbAfterA ((none : Option String).getD "")
               = .ok none
             ∧ dbAfterALinked.events
                 = dbAfterA.events ++ [create_link_event aComCase exOfficer 2000]
             ∧ (if (none : Option String).getD "" ≠ ""
                then dbAfterALinked.idem_keys = dbAfterA.idem_keys
                  ++ [((none : Option String).getD "", aComCase.id)]
                else dbAfterALinked.idem_keys = dbAfterA.idem_keys)))) :=
  ⟨C10_duplicate_frame dbAfterA exOfficer (some "https://b.com") none none
      (some "k1") 2000 "case-b" aComCase dbAfterA (by rfl),
   C10_duplicate_frame dbAfterA exOfficer (some "https://a.com") none none
      none 2000 "case-b" aComCase dbAfterALinked (by rfl)⟩

/-- C3: the claim says a unique-constraint violation during the dedup
insert race is caught inside create_case and re-resolved to the existing
case. The code has no such handler: when another transaction commits the
same content between this call's dedup lookup and its commit, the
IntegrityError surfaces to the caller as a constraint violation (first
conjunct); only a sequential rerun would take the duplicate-found path
(second conjunct). -/
theorem C3_race_conflict_surfaced :
    create_case_race emptyDB dbAfterA exOfficer (some "https://a.com") none none
      none 2000 "case-b" = .error .constraintViolation
    ∧ create_case dbAfterA exOfficer (some "https://a.com") none none none 2000
      "case-b" = .ok ⟨aComCase, false, dbAfterALinked⟩ :=
  ⟨rfl, rfl⟩

/-- C7: create_case raises the content-required validation error exactly
when the processed submission has has_content false; has_content holds
exactly when a nonblank url was supplied or the supplied file hash passes
the 64-hex validation; and a submission with an invalid file hash but a
nonblank url succeeds (the invalid hash is treated as absent, never as an
error). -/
theorem C7_content_validation (db : DB) (submitter : User)
    (url file_hash description idempotency_key : Option String)
    (now : Nat) (new_id : String) (hwf : DBWf db) :
    ((∃ msg, create_case db submitter url file_hash description idempotency_key
        now new_id = .error (.validationError msg))
      ↔ (process_submission url file_hash).has_content = false)
    ∧ (process_submission url file_hash).has_content
        = (urlSuppliedNonblank url || fileHashValid file_hash)
    ∧ (urlSuppliedNonblank url = true → fileHashValid file_hash = false →
        ∃ out, create_case db submitter url file_hash description
          idempotency_key now new_id = .ok out) := by
  obtain ⟨hids, hkeys, hbind, hurlnd, hfilnd, hdcov, hfcov⟩ := hwf
  refine ⟨⟨?_, ?_⟩, process_submission_has_content url file_hash, ?_⟩
  · rintro ⟨msg, hmsg⟩
    by_contra hfc
    rw [Bool.not_eq_false] at hfc
    exact create_case_no_validation db submitter url file_hash description
      idempotency_key now new_id hfc msg hmsg
  · intro h
    exact ⟨"Either URL or file_hash must be provided",
      by simp [create_case, create_case_plan, h]⟩
  · intro hu hfv
    cases url with
    | none => simp [urlSuppliedNonblank] at hu
    | some u =>
      have hsu : (pyStripL u.data).isEmpty = false := by
        simp only [urlSuppliedNonblank, Bool.not_eq_true'] at hu
        exact hu
      have hsu2 : pyStripL u.data ≠ [] := by
        intro hnil
        rw [hnil] at hsu
        simp at hsu
      have hcontent : (process_submission (some u) file_hash).has_content = true := by
        rw [process_submission_has_content]
        simp [urlSuppliedNonblank, hsu]
      have hup : (process_submission (some u) file_hash).url_hash ≠ "" := by
        rw [processed_url_hash_eq u file_hash hsu]
        unfold compute_url_hash
        rw [if_neg (normalize_url_ne_empty u hsu2)]
        exact sha256_hex_ne_empty _
      have hpf := processed_file_hash_empty u file_hash hsu hfv
      by_cases hks : (idempotency_key.getD "" : String) ≠ ""
      · cases hf : db.idem_keys.filter (fun kv => kv.1 == idempotency_key.getD "") with
        | nil =>
          apply dedup_path_ok db submitter (some u) file_hash description
            idempotency_key now new_id hcontent hurlnd hdcov hup hpf ?_ (fun _ => hf)
          rw [if_pos hks]
          unfold check_idempotency_key
          rw [if_neg hks, hf]
        | cons kv rest =>
          cases rest with
          | nil =>
            have hkvmem : kv ∈ db.idem_keys := List.mem_of_mem_filter
              (by rw [hf]; exact List.mem_singleton.mpr rfl)
            have hkv1 : kv.1 = idempotency_key.getD "" := by
              have hmf := List.mem_filter.mp
                (show kv ∈ db.idem_keys.filter
                    (fun kv => kv.1 == idempotency_key.getD "") by
                  rw [hf]; exact List.mem_singleton.mpr rfl)
              simpa using hmf.2
            obtain ⟨c, hcmem, hcid⟩ := hbind kv hkvmem
            have hkeq : idempotency_key = some (idempotency_key.getD "") := by
              cases idempotency_key with
              | none => simp at hks
              | some s => rfl
            refine ⟨⟨c, false, db⟩, ?_⟩
            rw [hkeq]
            apply key_replay_ok db submitter (some u) file_hash description
              (idempotency_key.getD "") now new_id c hks hkeys hids ?_ hcmem hcontent
            have hpair : (idempotency_key.getD "", c.id) = kv := by
              rw [← hkv1, hcid]
            rw [hpair]
            exact hkvmem
          | cons kv2 r2 =>
            exfalso
            have hle := nodup_map_filter_le_one Prod.fst db.idem_keys
              (idempotency_key.getD "") hkeys
            rw [hf] at hle
            simp at hle
      · apply dedup_path_ok db submitter (some u) file_hash description
          idempotency_key now new_id hcontent hurlnd hdcov hup hpf ?_
          (fun h => absurd h hks)
        rw [if_neg hks]

/-- Witness for C7: submitting an invalid file hash (zz) together with the
url https://a.com against the empty store succeeds. -/
theorem C7_content_validation_witness :
    ∃ out, create_case emptyDB exVictim (some "https://a.com") (some "zz")
      none none 1000 "case-a" = .ok out :=
  (C7_content_validation emptyDB exVictim (some "https://a.com") (some "zz")
    none none 1000 "case-a" (by unfold DBWf; decide)).2.2 (by decide) (by decide)

/-- Counterexample for C8 as stated: normalization is not idempotent.  A
semicolon in the last path segment is parsed as a params separator only
when it is not followed by a further slash; stripping the trailing slash
on the first pass exposes the semicolon to the params split on the second
pass, so the url https://x.com/a;/ normalizes to https://x.com/a; which
normalizes further to https://x.com/a. -/
theorem C8_counterexample :
    normalize_url "https://x.com/a;/" = "https://x.com/a;"
    ∧ normalize_url "https://x.com/a;" = "https://x.com/a"
    ∧ normalize_url (normalize_url "https://x.com/a;/")
        ≠ normalize_url "https://x.com/a;/" :=
  ⟨rfl, rfl, by decide⟩

/-- Counterexample for C9 as stated: rstrip removes every trailing slash,
not just one, so https://x.com/a// normalizes to https://x.com/a rather
than https://x.com/a/. -/
theorem C9_counterexample :
    normalize_url "https://x.com/a//" = "https://x.com/a"
    ∧ normalize_url "https://x.com/a//" ≠ "https://x.com/a/" :=
  ⟨rfl, by decide⟩

/-- Helper: the per-character facts bundled in charFacts, unpacked. -/
lemma charFacts_props (c : Char) (h : charFacts c = true) :
    isPySpace c = false ∧ toLowerChar c = c
    ∧ (c == '\t' || c == '\r' || c == '\n') = false
    ∧ (c == '?') = false ∧ (c == '#') = false ∧ (c == ';') = false
    ∧ (c == '[' || c == ']') = false := by
  unfold charFacts at h
  simp only [Bool.and_eq_true, Bool.not_eq_true', beq_iff_eq] at h
  obtain ⟨⟨⟨⟨⟨⟨h1, h2⟩, h3⟩, h4⟩, h5⟩, h6⟩, h7⟩ := h
  exact ⟨h1, h2, h3, by simp [h4], by simp [h5], by simp [h6], h7⟩

/-- Helper: every canonical host character satisfies charFacts. -/
lemma hostOk_charFacts (c : Char) (h : hostOk c = true) : charFacts c = true :=
  (by decide : ∀ x ∈ hostChars, charFacts x = true) c (of_decide_eq_true h)

/-- Helper: no canonical host character is a slash. -/
lemma hostOk_not_slash (c : Char) (h : hostOk c = true) : (c == '/') = false :=
  (by decide : ∀ x ∈ hostChars, (x == '/') = false) c (of_decide_eq_true h)

/-- Helper: every canonical path character satisfies charFacts. -/
lemma pathOk_charFacts (c : Char) (h : pathOk c = true) : charFacts c = true :=
  (by decide : ∀ x ∈ pathChars, charFacts x = true) c (of_decide_eq_true h)

/-- Helper: dropWhile is the identity when the predicate is false on every
element. -/
lemma dropWhile_all_false_id {p : Char → Bool} (l : List Char)
    (h : ∀ c ∈ l, p c = false) : l.dropWhile p = l := by
  cases l with
  | nil => rfl
  | cons a t =>
    rw [List.dropWhile_cons, h a (List.mem_cons_self a t)]
    simp

/-- Helper: strip is the identity on whitespace-free strings. -/
lemma pyStripL_all_id (l : List Char) (h : ∀ c ∈ l, isPySpace c = false) :
    pyStripL l = l := by
  unfold pyStripL rdropWhile
  rw [dropWhile_all_false_id l h,
    dropWhile_all_false_id _ (fun c hc => h c (List.mem_reverse.mp hc)),
    List.reverse_reverse]

/-- Helper: lower is the identity on already-lowercase strings. -/
lemma toLowerL_all_id (l : List Char) (h : ∀ c ∈ l, toLowerChar c = c) :
    toLowerL l = l := by
  unfold toLowerL
  induction l with
  | nil => rfl
  | cons a t ih =>
    rw [List.map_cons, h a (List.mem_cons_self a t),
      ih fun c hc => h c (List.mem_cons_of_mem a hc)]

/-- Helper: a canonical https url parses to scheme https, netloc h, path p
and empty params, query and fragment. -/
lemma urlparse_canonical (h p : List Char) (hh0 : h ≠ [])
    (hH : ∀ c ∈ h, hostOk c = true)
    (hP : p = [] ∨ (p.head? = some '/' ∧ ∀ c ∈ p, pathOk c = true)) :
    urlparseM (canonicalHttps h p) = .ok ⟨"https".data, h, p, [], [], []⟩ := by
  have hfh : ∀ c ∈ h, charFacts c = true := fun c hc => hostOk_charFacts c (hH c hc)
  have hfp : ∀ c ∈ p, charFacts c = true := by
    rcases hP with rfl | ⟨_, hp2⟩
    · intro c hc; cases hc
    · exact fun c hc => pathOk_charFacts c (hp2 c hc)
  have hfall : ∀ c ∈ canonicalHttps h p, charFacts c = true := by
    intro c hcm
    unfold canonicalHttps at hcm
    rcases List.mem_append.mp hcm with h1 | h2
    · rcases List.mem_append.mp h1 with h3 | h4
      · exact (by decide : ∀ x ∈ "https://".data, charFacts x = true) c h3
      · exact hfh c h4
    · exact hfp c h2
  have hcan : canonicalHttps h p = "https://".data ++ (h ++ p) := by
    unfold canonicalHttps; rw [List.append_assoc]
  have hrm : removeUnsafe (canonicalHttps h p) = canonicalHttps h p := by
    unfold removeUnsafe
    rw [List.filter_eq_self]
    intro a ha
    rw [(charFacts_props a (hfall a ha)).2.2.1]
    rfl
  have hsor : splitSchemeOr ("https://".data ++ (h ++ p))
      = ("https".data, '/' :: '/' :: (h ++ p)) := by
    unfold splitSchemeOr
    rw [splitScheme_https]
  have hpredh : ∀ c ∈ h, ((fun c => !(c == '/' || c == '?' || c == '#')) c) = true := by
    intro c hcm
    have hcf := charFacts_props c (hfh c hcm)
    show (!(c == '/' || c == '?' || c == '#')) = true
    rw [hostOk_not_slash c (hH c hcm), hcf.2.2.2.1, hcf.2.2.2.2.1]
    rfl
  have hTake : (h ++ p).takeWhile (fun c => !(c == '/' || c == '?' || c == '#')) = h := by
    rw [takeWhile_append_all h p hpredh]
    rcases hP with rfl | ⟨hph, _⟩
    · simp
    · cases p with
      | nil => simp
      | cons a t =>
        have ha : a = '/' := by simpa using hph
        subst ha
        rw [List.takeWhile_cons]
        simp
  have hDrop : (h ++ p).dropWhile (fun c => !(c == '/' || c == '?' || c == '#')) = p := by
    rw [dropWhile_append_all h p hpredh]
    rcases hP with rfl | ⟨hph, _⟩
    · simp
    · cases p with
      | nil => simp
      | cons a t =>
        have ha : a = '/' := by simpa using hph
        subst ha
        rw [List.dropWhile_cons]
        simp
  have hnet : splitNetlocOr ('/' :: '/' :: (h ++ p)) = (h, p) := by
    show splitnetloc (h ++ p) = (h, p)
    unfold splitnetloc
    rw [hTake, hDrop]
  have hbr : h.any (fun c => c == '[' || c == ']') = false := by
    rw [List.any_eq_false]
    intro c hcm hc
    rw [(charFacts_props c (hfh c hcm)).2.2.2.2.2.2] at hc
    exact Bool.false_ne_true hc
  have hfrag : splitFragmentOr p = (p, []) := by
    unfold splitFragmentOr
    rw [splitFirst_none p fun a ha => (charFacts_props a (hfp a ha)).2.2.2.2.1]
  have hquery : splitQueryOr p = (p, []) := by
    unfold splitQueryOr
    rw [splitFirst_none p fun a ha => (charFacts_props a (hfp a ha)).2.2.2.1]
  have hsplit : urlsplitM (canonicalHttps h p)
      = .ok ⟨"https".data, h, p, [], [], []⟩ := by
    unfold urlsplitM
    rw [hrm, hcan, hsor]
    show urlsplitAfterScheme "https".data ('/' :: '/' :: (h ++ p))
      = .ok ⟨"https".data, h, p, [], [], []⟩
    unfold urlsplitAfterScheme
    rw [hnet]
    show (if h.any (fun c => c == '[' || c == ']') = true then
      (Except.error () : Except Unit ParseResult)
      else Except.ok (⟨"https".data, h,
        (splitQueryOr (splitFragmentOr p).1).1, [],
        (splitQueryOr (splitFragmentOr p).1).2, (splitFragmentOr p).2⟩ : ParseResult))
      = Except.ok ⟨"https".data, h, p, [], [], []⟩
    rw [if_neg (by rw [hbr]; exact Bool.false_ne_true), hfrag]
    show Except.ok (⟨"https".data, h, (splitQueryOr p).1, [],
        (splitQueryOr p).2, []⟩ : ParseResult)
      = Except.ok ⟨"https".data, h, p, [], [], []⟩
    rw [hquery]
  have hsemi : p.any (fun c => c == ';') = false := by
    rw [List.any_eq_false]
    intro c hcm hc
    rw [(charFacts_props c (hfp c hcm)).2.2.2.2.2.1] at hc
    exact Bool.false_ne_true hc
  unfold urlparseM
  rw [hsplit]
  show (if (uses_params.contains (String.mk "https".data)
      && p.any (fun c => c == ';')) = true then
      Except.ok (⟨"https".data, h, (splitparams p).1,
        (splitparams p).2, [], []⟩ : ParseResult)
    else Except.ok ⟨"https".data, h, p, [], [], []⟩)
    = Except.ok ⟨"https".data, h, p, [], [], []⟩
  rw [if_neg (by rw [hsemi, Bool.and_false]; exact Bool.false_ne_true)]

/-- Helper: every character of a canonical https url satisfies charFacts. -/
lemma canonical_charFacts (h p : List Char)
    (hH : ∀ c ∈ h, hostOk c = true)
    (hP : p = [] ∨ (p.head? = some '/' ∧ ∀ c ∈ p, pathOk c = true)) :
    ∀ c ∈ canonicalHttps h p, charFacts c = true := by
  intro c hcm
  unfold canonicalHttps at hcm
  rcases List.mem_append.mp hcm with h1 | h2
  · rcases List.mem_append.mp h1 with h3 | h4
    · exact (by decide : ∀ x ∈ "https://".data, charFacts x = true) c h3
    · exact hostOk_charFacts c (hH c h4)
  · rcases hP with rfl | ⟨_, hp2⟩
    · cases h2
    · exact pathOk_charFacts c (hp2 c h2)

/-- Helper: urlunparse rebuilds a canonical parse exactly, for a path that
is empty or slash-led. -/
lemma reassemble_canonical (h q : List Char) (hh0 : h ≠ [])
    (hq : q = [] ∨ q.take 1 = ['/']) :
    urlunparseM ⟨"https".data, h, q, [], [], []⟩ = canonicalHttps h q := by
  show addScheme "https".data (addNetloc h q) = canonicalHttps h q
  have hinner : ¬(q ≠ [] ∧ q.take 1 ≠ ['/']) := by
    rcases hq with rfl | ht
    · rintro ⟨hne, _⟩; exact hne rfl
    · rintro ⟨_, hne⟩; exact hne ht
  have hn : addNetloc h q = '/' :: '/' :: (h ++ q) := by
    unfold addNetloc
    rw [if_pos (Or.inl hh0), if_neg hinner]
  rw [hn]
  show ("https".data ++ ':' :: ('/' :: '/' :: (h ++ q)) : List Char)
    = canonicalHttps h q
  unfold canonicalHttps
  rw [List.append_assoc]
  rfl

/-- Helper: on the canonical class, normalize_url keeps scheme and host and
maps the path to itself when it is exactly the root, and to its
all-trailing-slashes-stripped form otherwise. -/
lemma normalize_canonical (h p : List Char) (hh0 : h ≠ [])
    (hH : ∀ c ∈ h, hostOk c = true)
    (hP : p = [] ∨ (p.head? = some '/' ∧ ∀ c ∈ p, pathOk c = true)) :
    normalizeL (canonicalHttps h p)
      = canonicalHttps h (if p = "/".data then "/".data else rstripSlash p) := by
  have hfall := canonical_charFacts h p hH hP
  have hstrip : pyStripL (canonicalHttps h p) = canonicalHttps h p :=
    pyStripL_all_id _ fun c hc => (charFacts_props c (hfall c hc)).1
  have hlower : toLowerL (canonicalHttps h p) = canonicalHttps h p :=
    toLowerL_all_id _ fun c hc => (charFacts_props c (hfall c hc)).2.1
  have hsw : startsWithHttp (canonicalHttps h p) = true := by
    unfold canonicalHttps
    rw [List.append_assoc]
    exact startsWithHttp_https _
  have hne : ¬((canonicalHttps h p).isEmpty = true) := by
    rw [show (canonicalHttps h p).isEmpty = false from rfl]
    exact Bool.false_ne_true
  unfold normalizeL
  rw [hstrip, if_neg hne]
  unfold normalizeStripped
  rw [hlower, hsw, if_pos rfl, hlower]
  unfold normalizeLowered
  rw [urlparse_canonical h p hh0 hH hP]
  show reassemble ⟨"https".data, h, p, [], [], []⟩ = _
  show urlunparseM ⟨"https".data, h,
      (if p = "/".data then "/".data else rstripSlash p), [], [], []⟩
    = canonicalHttps h (if p = "/".data then "/".data else rstripSlash p)
  have hq : (if p = "/".data then "/".data else rstripSlash p) = []
      ∨ (if p = "/".data then "/".data else rstripSlash p).take 1 = ['/'] := by
    by_cases hpr : p = "/".data
    · rw [if_pos hpr]; right; rfl
    · rw [if_neg hpr]
      rcases hP with rfl | ⟨hph, _⟩
      · left; rfl
      · cases hql : rstripSlash p with
        | nil => left; rfl
        | cons a s =>
          right
          have hpre : rstripSlash p <+: p := rdropWhile_pre _ p
          obtain ⟨t, ht⟩ := hpre
          rw [hql] at ht
          have hhd : p.head? = some a := by rw [← ht]; rfl
          rw [hph] at hhd
          injection hhd with ha
          rw [← ha]
          rfl
  exact reassemble_canonical h _ hh0 hq

/-- C8 (amended): on the canonical class of urls — scheme https, nonempty
lowercase host over letters, digits, dots and hyphens, path empty or
slash-led over letters, digits and the slash, dot, hyphen and underscore —
normalization is idempotent. -/
theorem C8_idempotent (h p : List Char) (hcc : CanonicalClass h p) :
    normalize_url (normalize_url (String.mk (canonicalHttps h p)))
      = normalize_url (String.mk (canonicalHttps h p)) := by
  obtain ⟨hh0, hH, hP⟩ := hcc
  have hsub : ∀ c ∈ rstripSlash p, c ∈ p :=
    fun c hc => (rdropWhile_pre (fun c => c == '/') p).sublist.subset hc
  have h1 : normalize_url (String.mk (canonicalHttps h p))
      = String.mk (canonicalHttps h
          (if p = "/".data then "/".data else rstripSlash p)) := by
    show String.mk (normalizeL (canonicalHttps h p)) = _
    rw [normalize_canonical h p hh0 hH hP]
  rw [h1]
  by_cases hpr : p = "/".data
  · rw [if_pos hpr]
    show String.mk (normalizeL (canonicalHttps h "/".data)) = _
    rw [normalize_canonical h "/".data hh0 hH (Or.inr ⟨rfl, by decide⟩)]
    rw [if_pos rfl]
  · rw [if_neg hpr]
    have hP2 : rstripSlash p = []
        ∨ ((rstripSlash p).head? = some '/'
            ∧ ∀ c ∈ rstripSlash p, pathOk c = true) := by
      rcases hP with rfl | ⟨hph, hp2⟩
      · left; rfl
      · cases hql : rstripSlash p with
        | nil => left; rfl
        | cons a s =>
          right
          obtain ⟨t, ht⟩ : rstripSlash p <+: p := rdropWhile_pre _ p
          rw [hql] at ht
          have hhd : p.head? = some a := by rw [← ht]; rfl
          rw [hph] at hhd
          injection hhd with ha
          constructor
          · rw [← ha]; rfl
          · intro c hc
            exact hp2 c (hsub c (by rw [hql]; exact hc))
    show String.mk (normalizeL (canonicalHttps h (rstripSlash p))) = _
    rw [normalize_canonical h (rstripSlash p) hh0 hH hP2]
    have hns : ¬(rstripSlash p = "/".data) := by
      intro hcon
      have hx := rdropWhile_getLast? (fun c => c == '/') p '/'
        (by rw [show rdropWhile (fun c => c == '/') p = ['/'] from hcon]; rfl)
      exact absurd hx (by decide)
    rw [if_neg hns]
    have hidem : rstripSlash (rstripSlash p) = rstripSlash p :=
      rdropWhile_idem _ p
    rw [hidem]

/-- Witness for C8: normalization is idempotent at https://x.com/a/. -/
theorem C8_idempotent_witness :
    CanonicalClass "x.com".data "/a/".data
    ∧ normalize_url (normalize_url
        (String.mk (canonicalHttps "x.com".data "/a/".data)))
      = normalize_url (String.mk (canonicalHttps "x.com".data "/a/".data)) :=
  ⟨by unfold CanonicalClass; decide,
   C8_idempotent "x.com".data "/a/".data (by unfold CanonicalClass; decide)⟩

/-- C9 (amended): for a canonical url whose path is not exactly the root,
normalize_url strips ALL trailing slashes from the path — not a single
one — so the normalized path never ends in a slash. -/
theorem C9_strip_all (h p : List Char) (hcc : CanonicalClass h p)
    (hpr : p ≠ "/".data) :
    normalize_url (String.mk (canonicalHttps h p))
      = String.mk (canonicalHttps h (rstripSlash p))
    ∧ ∀ x, (rstripSlash p).getLast? = some x → (x == '/') = false := by
  obtain ⟨hh0, hH, hP⟩ := hcc
  constructor
  · show String.mk (normalizeL (canonicalHttps h p)) = _
    rw [normalize_canonical h p hh0 hH hP, if_neg hpr]
  · intro x hx
    exact rdropWhile_getLast? (fun c => c == '/') p x hx

/-- Witness for C9: https://x.com/a// normalizes with both trailing
slashes removed. -/
theorem C9_strip_all_witness :
    CanonicalClass "x.com".data "/a//".data
    ∧ (normalize_url (String.mk (canonicalHttps "x.com".data "/a//".data))
        = String.mk (canonicalHttps "x.com".data (rstripSlash "/a//".data))
      ∧ ∀ x, (rstripSlash "/a//".data).getLast? = some x
          → (x == '/') = false) :=
  ⟨by unfold CanonicalClass; decide,
   C9_strip_all "x.com".data "/a//".data
     (by unfold CanonicalClass; decide) (by decide)⟩

end Graphelix
